import Mathlib

/-!
The URL parser and the GitHub API client of issue2md.

A shallow embedding of `internal/parser/parser.go` and `internal/github/client.go`.

Modelling conventions.

* A Go `string` is modelled as `Str = List Char`.  Every delimiter the code looks at
  (`/`, the prefix `https://github.com/`, the sign characters and the decimal digits) is
  ASCII, so scanning the characters agrees with Go's scan over the UTF-8 bytes.
* A Go result pair `(*T, error)` of the repository's own functions is an `Except`; the
  standard-library number parsers keep Go's `(value, err)` pair because `ParseInt` reads
  the value that `ParseUint` returns next to a range error.
* Go's `int` is taken to be 64 bits wide (`strconv.IntSize = 64`).
* The standard library (`strings`, `strconv`) is modelled from its documented behaviour;
  `encoding/json`, `time.Parse` and the HTTP transport are parameters of the client.
-/

namespace Issue2md

/-- A Go string, as the list of its characters. -/
abbrev Str := List Char

/-! ## `strings` -/

namespace strings

/-- The call `strings.HasPrefix(s, prefix)`. -/
def HasPrefix (s pre : Str) : Bool :=
  pre.isPrefixOf s

/-- The call `strings.TrimPrefix(s, prefix)`: `s` without the leading `prefix`, or `s`
itself when it does not start with `prefix`. -/
def TrimPrefix (s pre : Str) : Str :=
  if HasPrefix s pre then s.drop pre.length else s

/-- The call `strings.Split(s, sep)` for a one-character separator: the substrings
between the occurrences of `sep`, one more than there are occurrences. -/
def Split : Str → Char → List Str
  | [], _ => [[]]
  | c :: cs, sep =>
    if c = sep then [] :: Split cs sep
    else
      match Split cs sep with
      | [] => [[c]]
      | seg :: segs => (c :: seg) :: segs

end strings

/-! ## `strconv` -/

namespace strconv

/-- The two sentinel errors `strconv.ErrSyntax` and `strconv.ErrRange`. -/
inductive Err where
  | ErrSyntax
  | ErrRange
  deriving DecidableEq, Repr

/-- The record `strconv.NumError`: the failing function, the input, the reason. -/
structure NumError where
  Func : Str
  Num : Str
  Err : Err
  deriving DecidableEq, Repr

/-- The constant `strconv.IntSize` on a 64-bit target. -/
def IntSize : Nat := 64

/-- The constant `maxUint64`. -/
def maxUint64 : Nat := 2 ^ 64 - 1

/-- The digit a character stands for in the `'0' <= c && c <= '9'` case of `ParseUint`. -/
def digit (c : Char) : Option Nat :=
  if 48 ≤ c.toNat ∧ c.toNat ≤ 57 then some (c.toNat - 48) else none

/-- The loop of `ParseUint(s, 10, bitSize)` over the characters, `n` being the `uint64`
accumulator.  A character that is no decimal digit stops with `ErrSyntax` and value `0`;
an overflow stops at once with `ErrRange` and value `maxVal`. -/
def ParseUint.loop (maxVal : Nat) : Str → Nat → Nat × Option Err
  | [], n => (n, none)
  | c :: cs, n =>
    match digit c with
    | none => (0, some Err.ErrSyntax)
    | some d =>
      if n ≥ maxUint64 / 10 + 1 then (maxVal, some Err.ErrRange)
      else
        let m := (n * 10) % 2 ^ 64
        let n1 := (m + d) % 2 ^ 64
        if n1 < m ∨ n1 > maxVal then (maxVal, some Err.ErrRange)
        else ParseUint.loop maxVal cs n1

/-- The call `strconv.ParseUint(s, 10, bitSize)` for `0 < bitSize ≤ 64`, as the pair of
the value and the reason of the error, if any. -/
def ParseUint (s : Str) (bitSize : Nat) : Nat × Option Err :=
  if s = [] then (0, some Err.ErrSyntax)
  else ParseUint.loop (2 ^ bitSize - 1) s 0

/-- The conversion `int64(u)` of a `uint64`, and the wrap-around of `int64` arithmetic. -/
def toInt64 (z : Int) : Int :=
  (z + 2 ^ 63) % 2 ^ 64 - 2 ^ 63

/-- The call `strconv.ParseInt(s, 10, 0)`: an optional sign, then `ParseUint`, then the
range check against `1 << (IntSize - 1)`. -/
def ParseInt (s : Str) : Int × Option NumError :=
  if s = [] then (0, some ⟨"ParseInt".toList, s, Err.ErrSyntax⟩)
  else
    let neg : Bool := s.head? = some '-'
    let s1 : Str := if s.head? = some '+' ∨ s.head? = some '-' then s.tail else s
    let r := ParseUint s1 IntSize
    if r.2 = some Err.ErrSyntax then (0, some ⟨"ParseInt".toList, s, Err.ErrSyntax⟩)
    else
      let un := r.1
      let cutoff : Nat := 2 ^ (IntSize - 1)
      if !neg ∧ un ≥ cutoff then
        (toInt64 (cutoff - 1 : Nat), some ⟨"ParseInt".toList, s, Err.ErrRange⟩)
      else if neg ∧ un > cutoff then
        (toInt64 (-(toInt64 cutoff)), some ⟨"ParseInt".toList, s, Err.ErrRange⟩)
      else
        let n := toInt64 un
        (if neg then toInt64 (-n) else n, none)

/-- The call `strconv.Atoi(s)`: `ParseInt(s, 10, 0)` with the error renamed to `Atoi`
(the fast path for short inputs computes the same result). -/
def Atoi (s : Str) : Int × Option NumError :=
  let r := ParseInt s
  (r.1, r.2.map fun e => { e with Func := "Atoi".toList })

end strconv

/-! ## `internal/parser` -/

namespace parser

/-- The Go type `ResourceType`, a string type. -/
abbrev ResourceType := Str

def ResourceTypeIssue : ResourceType := "issue".toList
def ResourceTypePullRequest : ResourceType := "pull_request".toList
def ResourceTypeDiscussion : ResourceType := "discussion".toList

/-- The struct `URLInfo`. -/
structure URLInfo where
  Type_ : ResourceType
  Owner : Str
  Repo : Str
  Number : Int
  Original : Str
  deriving DecidableEq, Repr

/-- The errors `Parse` builds with `fmt.Errorf`, one constructor per format string, each
carrying the formatted argument. -/
inductive Error where
  /-- The error "invalid GitHub URL format: %s". -/
  | invalidFormat (url : Str)
  /-- The error "invalid issue number: %w", wrapping the error of `strconv.Atoi`. -/
  | invalidNumber (err : strconv.NumError)
  /-- The error "unsupported resource type: %s". -/
  | unsupportedType (resourceType : Str)
  deriving DecidableEq, Repr

/-- The prefix every accepted URL starts with. -/
def githubPrefix : Str := "https://github.com/".toList

/-- The method `(*parser).Parse`. -/
def Parse (url : Str) : Except Error URLInfo :=
  if !strings.HasPrefix url githubPrefix then
    .error (.invalidFormat url)
  else
    let parts := strings.TrimPrefix url githubPrefix
    let segments := strings.Split parts '/'
    if segments.length ≠ 4 then
      .error (.invalidFormat url)
    else
      let owner := segments.getD 0 []
      let repo := segments.getD 1 []
      let resourceType := segments.getD 2 []
      let numberStr := segments.getD 3 []
      match strconv.Atoi numberStr with
      | (_, some err) => .error (.invalidNumber err)
      | (number, none) =>
        if resourceType = "issues".toList then
          .ok ⟨ResourceTypeIssue, owner, repo, number, url⟩
        else if resourceType = "pull".toList then
          .ok ⟨ResourceTypePullRequest, owner, repo, number, url⟩
        else if resourceType = "discussions".toList then
          .ok ⟨ResourceTypeDiscussion, owner, repo, number, url⟩
        else
          .error (.unsupportedType resourceType)

/-- The method `(*parser).Validate`. -/
def Validate (url : Str) : Bool :=
  match Parse url with
  | .ok _ => true
  | .error _ => false

end parser

/-! ## `internal/github` -/

namespace github

/-- The struct `Comment`; `Time` stands for `time.Time`. -/
structure Comment (Time : Type) where
  Author : Str
  AuthorURL : Str
  Body : Str
  CreatedAt : Time
  UpdatedAt : Time
  deriving DecidableEq, Repr

/-- The struct `Issue`; the pointer fields `ClosedAt` and `Milestone` are options. -/
structure Issue (Time : Type) where
  Title : Str
  ID : Int
  State : Str
  URL : Str
  Body : Str
  CreatedAt : Time
  UpdatedAt : Time
  ClosedAt : Option Time
  Author : Str
  AuthorURL : Str
  Labels : List Str
  Milestone : Option Str
  Assignees : List Str
  CommentsCount : Int
  Comments : List (Comment Time)
  deriving DecidableEq, Repr

/-- The anonymous struct `User` inside the payloads. -/
structure APIUser where
  Login : Str
  HTMLURL : Str
  deriving DecidableEq, Repr

/-- An element of `labels`. -/
structure APILabel where
  Name : Str
  deriving DecidableEq, Repr

/-- The struct behind `milestone`. -/
structure APIMilestone where
  Title : Str
  deriving DecidableEq, Repr

/-- An element of `assignees`. -/
structure APIAssignee where
  Login : Str
  deriving DecidableEq, Repr

/-- The local struct `apiIssue` of `fetchIssue`, the decoded issue payload. -/
structure APIIssue where
  ID : Int
  Number : Int
  Title : Str
  State : Str
  HTMLURL : Str
  Body : Str
  CreatedAt : Str
  UpdatedAt : Str
  ClosedAt : Option Str
  User : APIUser
  Labels : List APILabel
  Milestone : Option APIMilestone
  Assignees : List APIAssignee
  Comments : Int
  deriving DecidableEq, Repr

/-- An element of the local slice `apiComments` of `fetchComments`. -/
structure APIComment where
  User : APIUser
  Body : Str
  CreatedAt : Str
  UpdatedAt : Str
  deriving DecidableEq, Repr

/-- The local struct `errResp`, the error envelope of a response that is not 200. -/
structure ErrResp where
  Message : Str
  Docs : Str
  deriving DecidableEq, Repr

/-- The value `http.Header`, as a list of keys with their values. -/
abbrev Header := List (Str × Str)

/-- The method `Header.Set`: the value replaces whatever the key had. -/
def Header.Set (h : Header) (key value : Str) : Header :=
  (key, value) :: h.filter (fun kv => kv.1 ≠ key)

/-- The parts of `http.Request` the client touches; `Ctx` stands for `context.Context`. -/
structure Request (Ctx : Type) where
  ctx : Ctx
  Method : Str
  URL : Str
  Header : Header

/-- The parts of `http.Response` the client reads; `Body` stands for the response body. -/
structure Response (Body : Type) where
  StatusCode : Int
  Body : Body

/-- The constant `http.StatusOK`. -/
def StatusOK : Int := 200

/-- The standard library as the client calls it.  An error of the library is its message.
`decodeErrResp` is what `Decode(&errResp)` leaves in `errResp`, its own error being
dropped by the code. -/
structure Lib (Time Body Ctx : Type) where
  /-- The zero value `time.Time{}`. -/
  zeroTime : Time
  /-- The call `time.Parse(layout, value)`. -/
  timeParse : Str → Str → Except Str Time
  /-- The call `http.NewRequestWithContext(ctx, method, url, nil)`. -/
  NewRequestWithContext : Ctx → Str → Str → Except Str (Request Ctx)
  /-- The call `json.NewDecoder(body).Decode(&errResp)`. -/
  decodeErrResp : Body → ErrResp
  /-- The call `json.NewDecoder(body).Decode(&apiIssue)`. -/
  decodeIssue : Body → Except Str APIIssue
  /-- The call `json.NewDecoder(body).Decode(&apiComments)`. -/
  decodeComments : Body → Except Str (List APIComment)

/-- The layout `time.RFC3339`. -/
def RFC3339 : Str := "2006-01-02T15:04:05Z07:00".toList

/-- The value `*http.Client`: sending a request changes the state `σ` of the world and
gives a response or a transport error. -/
structure HTTPClient (σ Body Ctx : Type) where
  Do : Request Ctx → σ → Except Str (Response Body) × σ

/-- The struct `clientImpl`. -/
structure clientImpl (σ Body Ctx : Type) where
  httpClient : HTTPClient σ Body Ctx
  baseURL : Str
  authToken : Str

/-- The errors the client builds with `fmt.Errorf`, one constructor per format string. -/
inductive Error where
  /-- The error "failed to create request: %w". -/
  | createRequest (err : Str)
  /-- The error "failed to send request: %w". -/
  | sendRequest (err : Str)
  /-- The error "unexpected status code %d: %s". -/
  | unexpectedStatus (code : Int) (message : Str)
  /-- The error "failed to decode response: %w". -/
  | decodeResponse (err : Str)
  /-- The error "failed to fetch issue: %w". -/
  | fetchIssue (err : Error)
  /-- The error "failed to fetch comments: %w". -/
  | fetchComments (err : Error)
  /-- The error "not implemented yet". -/
  | notImplemented
  deriving DecidableEq, Repr

variable {Time Body Ctx σ : Type}

/-- The method `(*clientImpl).fetchIssue`. -/
def fetchIssue (L : Lib Time Body Ctx) (c : clientImpl σ Body Ctx) (ctx : Ctx) (url : Str)
    (s : σ) : Except Error (Issue Time) × σ :=
  match L.NewRequestWithContext ctx "GET".toList url with
  | .error err => (.error (.createRequest err), s)
  | .ok req =>
    let req : Request Ctx :=
      if c.authToken ≠ [] then
        { req with Header := req.Header.Set "Authorization".toList
                                ("Bearer ".toList ++ c.authToken) }
      else req
    let req : Request Ctx :=
      { req with Header := req.Header.Set "Accept".toList
                              "application/vnd.github+json".toList }
    match c.httpClient.Do req s with
    | (.error err, s1) => (.error (.sendRequest err), s1)
    | (.ok resp, s1) =>
      if resp.StatusCode ≠ StatusOK then
        let errResp := L.decodeErrResp resp.Body
        (.error (.unexpectedStatus resp.StatusCode errResp.Message), s1)
      else
        match L.decodeIssue resp.Body with
        | .error err => (.error (.decodeResponse err), s1)
        | .ok apiIssue =>
          -- Convert to Issue
          let issue : Issue Time :=
            { ID := apiIssue.Number
              Title := apiIssue.Title
              State := apiIssue.State
              URL := apiIssue.HTMLURL
              Body := apiIssue.Body
              Author := apiIssue.User.Login
              AuthorURL := apiIssue.User.HTMLURL
              CreatedAt := L.zeroTime
              UpdatedAt := L.zeroTime
              ClosedAt := none
              Labels := []
              Milestone := none
              Assignees := []
              CommentsCount := 0
              Comments := [] }
          -- Parse timestamps
          let issue : Issue Time :=
            match L.timeParse RFC3339 apiIssue.CreatedAt with
            | .ok createdAt => { issue with CreatedAt := createdAt }
            | .error _ => issue
          let issue : Issue Time :=
            match L.timeParse RFC3339 apiIssue.UpdatedAt with
            | .ok updatedAt => { issue with UpdatedAt := updatedAt }
            | .error _ => issue
          let issue : Issue Time :=
            match apiIssue.ClosedAt with
            | some closed =>
              match L.timeParse RFC3339 closed with
              | .ok closedAt => { issue with ClosedAt := some closedAt }
              | .error _ => issue
            | none => issue
          -- Convert labels
          let issue : Issue Time :=
            apiIssue.Labels.foldl
              (fun issue label => { issue with Labels := issue.Labels ++ [label.Name] }) issue
          -- Convert milestone
          let issue : Issue Time :=
            match apiIssue.Milestone with
            | some milestone => { issue with Milestone := some milestone.Title }
            | none => issue
          -- Convert assignees
          let issue : Issue Time :=
            apiIssue.Assignees.foldl
              (fun issue assignee =>
                { issue with Assignees := issue.Assignees ++ [assignee.Login] }) issue
          let issue : Issue Time := { issue with CommentsCount := apiIssue.Comments }
          (.ok issue, s1)

/-- The method `(*clientImpl).fetchComments`. -/
def fetchComments (L : Lib Time Body Ctx) (c : clientImpl σ Body Ctx) (ctx : Ctx) (url : Str)
    (s : σ) : Except Error (List (Comment Time)) × σ :=
  match L.NewRequestWithContext ctx "GET".toList url with
  | .error err => (.error (.createRequest err), s)
  | .ok req =>
    let req : Request Ctx :=
      if c.authToken ≠ [] then
        { req with Header := req.Header.Set "Authorization".toList
                                ("Bearer ".toList ++ c.authToken) }
      else req
    let req : Request Ctx :=
      { req with Header := req.Header.Set "Accept".toList
                              "application/vnd.github+json".toList }
    match c.httpClient.Do req s with
    | (.error err, s1) => (.error (.sendRequest err), s1)
    | (.ok resp, s1) =>
      if resp.StatusCode ≠ StatusOK then
        let errResp := L.decodeErrResp resp.Body
        (.error (.unexpectedStatus resp.StatusCode errResp.Message), s1)
      else
        match L.decodeComments resp.Body with
        | .error err => (.error (.decodeResponse err), s1)
        | .ok apiComments =>
          let comments : List (Comment Time) :=
            apiComments.foldl
              (fun comments apiComment =>
                let comment : Comment Time :=
                  { Author := apiComment.User.Login
                    AuthorURL := apiComment.User.HTMLURL
                    Body := apiComment.Body
                    CreatedAt := L.zeroTime
                    UpdatedAt := L.zeroTime }
                let comment : Comment Time :=
                  match L.timeParse RFC3339 apiComment.CreatedAt with
                  | .ok createdAt => { comment with CreatedAt := createdAt }
                  | .error _ => comment
                let comment : Comment Time :=
                  match L.timeParse RFC3339 apiComment.UpdatedAt with
                  | .ok updatedAt => { comment with UpdatedAt := updatedAt }
                  | .error _ => comment
                comments ++ [comment])
              []
          (.ok comments, s1)

/-- The verb `%d` of `fmt.Sprintf` on an `int`. -/
def formatInt (n : Int) : Str :=
  (toString n).toList

/-- The method `(*clientImpl).FetchIssue`. -/
def FetchIssue (L : Lib Time Body Ctx) (c : clientImpl σ Body Ctx) (ctx : Ctx)
    (owner repo : Str) (number : Int) (s : σ) : Except Error (Issue Time) × σ :=
  -- Build issue URL
  let issueURL := c.baseURL ++ "/repos/".toList ++ owner ++ "/".toList ++ repo
    ++ "/issues/".toList ++ formatInt number
  -- Fetch issue
  match fetchIssue L c ctx issueURL s with
  | (.error err, s1) => (.error (.fetchIssue err), s1)
  | (.ok issue, s1) =>
    -- Fetch comments
    let commentsURL := c.baseURL ++ "/repos/".toList ++ owner ++ "/".toList ++ repo
      ++ "/issues/".toList ++ formatInt number ++ "/comments".toList
    match fetchComments L c ctx commentsURL s1 with
    | (.error err, s2) => (.error (.fetchComments err), s2)
    | (.ok comments, s2) =>
      let issue : Issue Time := { issue with Comments := comments }
      let issue : Issue Time := { issue with CommentsCount := (comments.length : Int) }
      (.ok issue, s2)

end github

/-! ## Vocabulary of the specification -/

/-- A decimal digit, `'0'` to `'9'`. -/
def IsDigit (c : Char) : Prop :=
  48 ≤ c.toNat ∧ c.toNat ≤ 57

instance (c : Char) : Decidable (IsDigit c) := by
  unfold IsDigit; infer_instance

/-- The number a string of decimal digits denotes when read after the digits of `n`. -/
def decimalFrom (n : Nat) (s : Str) : Nat :=
  s.foldl (fun a c => 10 * a + (c.toNat - 48)) n

/-- The number a string of decimal digits denotes. -/
def decimalValue (s : Str) : Nat :=
  decimalFrom 0 s

/-- A positive base-10 integer string: one decimal digit or more, denoting a number
greater than zero. -/
def IsPositiveDecimal (s : Str) : Prop :=
  s ≠ [] ∧ (∀ c ∈ s, IsDigit c) ∧ 0 < decimalValue s

instance (s : Str) : Decidable (IsPositiveDecimal s) := by
  unfold IsPositiveDecimal; infer_instance

/-- A base-10 integer that fits a 64-bit `int`: an optional sign, then one decimal digit
or more, denoting a number from `-2^63` to `2^63 - 1`. -/
def IsIntLiteral (s : Str) : Prop :=
  (if s.head? = some '+' ∨ s.head? = some '-' then s.tail else s) ≠ []
    ∧ (∀ c ∈ (if s.head? = some '+' ∨ s.head? = some '-' then s.tail else s), IsDigit c)
    ∧ (if s.head? = some '-' then
        decimalValue (if s.head? = some '+' ∨ s.head? = some '-' then s.tail else s) ≤ 2 ^ 63
      else
        decimalValue (if s.head? = some '+' ∨ s.head? = some '-' then s.tail else s) < 2 ^ 63)

instance (s : Str) : Decidable (IsIntLiteral s) := by
  unfold IsIntLiteral; infer_instance

/-- The segments of a URL in the words of the specification: the text after the
19 characters of `https://github.com/`, split at every `/` by the library function
`List.splitOn`. -/
def pathSegments (url : Str) : List Str :=
  (url.drop "https://github.com/".toList.length).splitOn '/'

namespace github

variable {Time Body Ctx σ : Type}

/-- The issue endpoint, `{base}/repos/{owner}/{repo}/issues/{number}`. -/
def issueEndpoint (base owner repo : Str) (number : Int) : Str :=
  base ++ "/repos/".toList ++ owner ++ "/".toList ++ repo ++ "/issues/".toList
    ++ formatInt number

/-- The comments endpoint, `{base}/repos/{owner}/{repo}/issues/{number}/comments`. -/
def commentsEndpoint (base owner repo : Str) (number : Int) : Str :=
  issueEndpoint base owner repo number ++ "/comments".toList

/-- The request as it goes out: with `Authorization: Bearer {token}` when a token is
configured, and with `Accept: application/vnd.github+json`. -/
def sentRequest (c : clientImpl σ Body Ctx) (req : Request Ctx) : Request Ctx :=
  let req : Request Ctx :=
    if c.authToken ≠ [] then
      { req with Header := req.Header.Set "Authorization".toList
                              ("Bearer ".toList ++ c.authToken) }
    else req
  { req with Header := req.Header.Set "Accept".toList "application/vnd.github+json".toList }

/-- A status code in 200-299. -/
def Is2xx (code : Int) : Prop :=
  200 ≤ code ∧ code ≤ 299

instance (code : Int) : Decidable (Is2xx code) := by
  unfold Is2xx; infer_instance

/-- The lenient reading of a timestamp: its time when it is valid RFC3339, the zero time
when it is not. -/
def parsedOrZero (L : Lib Time Body Ctx) (value : Str) : Time :=
  match L.timeParse RFC3339 value with
  | .ok t => t
  | .error _ => L.zeroTime

/-- The lenient reading of `closed_at`: unset when it is absent, null or not valid
RFC3339, its time otherwise. -/
def parsedOrUnset (L : Lib Time Body Ctx) (value : Option Str) : Option Time :=
  match value with
  | none => none
  | some v =>
    match L.timeParse RFC3339 v with
    | .ok t => some t
    | .error _ => none

/-- The field mapping of an issue payload, step 4 of the algorithm, without
`CommentsCount`. -/
def MapsPayload (p : APIIssue) (issue : Issue Time) : Prop :=
  issue.ID = p.Number ∧ issue.Title = p.Title ∧ issue.State = p.State
    ∧ issue.URL = p.HTMLURL ∧ issue.Body = p.Body
    ∧ issue.Author = p.User.Login ∧ issue.AuthorURL = p.User.HTMLURL
    ∧ issue.Labels = p.Labels.map (fun l => l.Name)
    ∧ issue.Assignees = p.Assignees.map (fun a => a.Login)
    ∧ issue.Milestone = p.Milestone.map (fun m => m.Title)

/-- The issue that steps 4 to 6 of the algorithm describe for a decoded payload. -/
def issueOf (L : Lib Time Body Ctx) (p : APIIssue) : Issue Time :=
  { ID := p.Number
    Title := p.Title
    State := p.State
    URL := p.HTMLURL
    Body := p.Body
    CreatedAt := parsedOrZero L p.CreatedAt
    UpdatedAt := parsedOrZero L p.UpdatedAt
    ClosedAt := parsedOrUnset L p.ClosedAt
    Author := p.User.Login
    AuthorURL := p.User.HTMLURL
    Labels := p.Labels.map (fun l => l.Name)
    Milestone := p.Milestone.map (fun m => m.Title)
    Assignees := p.Assignees.map (fun a => a.Login)
    CommentsCount := p.Comments
    Comments := [] }

/-- The comment that step 8 of the algorithm describes for an element of the array. -/
def commentOf (L : Lib Time Body Ctx) (a : APIComment) : Comment Time :=
  { Author := a.User.Login
    AuthorURL := a.User.HTMLURL
    Body := a.Body
    CreatedAt := parsedOrZero L a.CreatedAt
    UpdatedAt := parsedOrZero L a.UpdatedAt }

/-! ### A test double, after `client_test.go` -/

/-- The body of a mock response: the JSON it would decode to. -/
inductive MockBody where
  | issue (p : APIIssue)
  | comments (arr : List APIComment)
  | message (e : ErrResp)
  | garbage
  deriving DecidableEq, Repr

/-- A library double: times are Unix seconds, the five timestamps of the fixtures parse,
every request can be built, and a body decodes to what it holds. -/
def mockLib : Lib Nat MockBody Unit where
  zeroTime := 0
  timeParse := fun _ v =>
    if v = "2024-01-15T10:00:00Z".toList then .ok 1705312800
    else if v = "2024-01-16T11:00:00Z".toList then .ok 1705402800
    else if v = "2024-01-15T12:00:00Z".toList then .ok 1705320000
    else if v = "2024-01-15T13:00:00Z".toList then .ok 1705323600
    else .error "cannot parse".toList
  NewRequestWithContext := fun ctx method url => .ok ⟨ctx, method, url, []⟩
  decodeErrResp := fun b =>
    match b with
    | .message e => e
    | _ => ⟨[], []⟩
  decodeIssue := fun b =>
    match b with
    | .issue p => .ok p
    | _ => .error "cannot unmarshal".toList
  decodeComments := fun b =>
    match b with
    | .comments arr => .ok arr
    | _ => .error "cannot unmarshal".toList

/-- A transport double: it answers from a queue of prepared results. -/
def mockHTTP : HTTPClient (List (Except Str (Response MockBody))) MockBody Unit where
  Do := fun _ s =>
    match s with
    | [] => (.error "connection refused".toList, [])
    | r :: rest => (r, rest)

/-- A client over the transport double, without a token. -/
def mockClient : clientImpl (List (Except Str (Response MockBody))) MockBody Unit :=
  ⟨mockHTTP, "https://api.github.com".toList, []⟩

/-- The payload `issueJSON` of `TestFetchIssue`. -/
def mockIssue : APIIssue :=
  { ID := 1
    Number := 12345
    Title := "Test Issue Title".toList
    State := "open".toList
    HTMLURL := "https://github.com/testowner/testrepo/issues/12345".toList
    Body := "This is a test issue body.".toList
    CreatedAt := "2024-01-15T10:00:00Z".toList
    UpdatedAt := "2024-01-16T11:00:00Z".toList
    ClosedAt := none
    User := ⟨"testuser".toList, "https://github.com/testuser".toList⟩
    Labels := [⟨"bug".toList⟩, ⟨"enhancement".toList⟩]
    Milestone := some ⟨"v1.0".toList⟩
    Assignees := [⟨"assignee1".toList⟩, ⟨"assignee2".toList⟩]
    Comments := 2 }

/-- The issue fixture with a `created_at` that is not RFC3339 and a `closed_at` that is
not RFC3339 either. -/
def mockIssueBadTimes : APIIssue :=
  { mockIssue with CreatedAt := "yesterday".toList, ClosedAt := some "soon".toList }

/-- The first element of `commentsJSON` of `TestFetchIssue`. -/
def mockComment1 : APIComment :=
  { User := ⟨"commenter1".toList, "https://github.com/commenter1".toList⟩
    Body := "First comment".toList
    CreatedAt := "2024-01-15T12:00:00Z".toList
    UpdatedAt := "2024-01-15T12:00:00Z".toList }

/-- The second element of `commentsJSON` of `TestFetchIssue`. -/
def mockComment2 : APIComment :=
  { User := ⟨"commenter2".toList, "https://github.com/commenter2".toList⟩
    Body := "Second comment".toList
    CreatedAt := "2024-01-15T13:00:00Z".toList
    UpdatedAt := "2024-01-15T13:00:00Z".toList }

end github

/-! ## Facts about `strings` -/

namespace strings

theorem HasPrefix_append (p s : Str) : HasPrefix (p ++ s) p = true := by
  simp [HasPrefix]

theorem TrimPrefix_append (p s : Str) : TrimPrefix (p ++ s) p = s := by
  simp [TrimPrefix, HasPrefix]

theorem eq_append_of_HasPrefix {s p : Str} (h : HasPrefix s p = true) :
    s = p ++ TrimPrefix s p := by
  have hp : p <+: s := by simpa [HasPrefix] using h
  obtain ⟨t, rfl⟩ := hp
  simp [TrimPrefix, HasPrefix]

theorem Split_ne_nil (s : Str) (sep : Char) : Split s sep ≠ [] := by
  cases s with
  | nil => simp [Split]
  | cons c cs =>
    simp only [Split]
    split
    · simp
    · split <;> simp

theorem Split_cons_sep (cs : Str) (sep : Char) :
    Split (sep :: cs) sep = [] :: Split cs sep := by
  simp [Split]

theorem Split_cons_ne {c sep : Char} (h : c ≠ sep) (cs : Str) :
    Split (c :: cs) sep
      = (c :: (Split cs sep).headD []) :: (Split cs sep).tail := by
  have hne := Split_ne_nil cs sep
  simp only [Split, if_neg h]
  cases hs : Split cs sep with
  | nil => exact absurd hs hne
  | cons seg segs => simp

theorem Split_of_not_mem {s : Str} {sep : Char} (h : sep ∉ s) : Split s sep = [s] := by
  induction s with
  | nil => simp [Split]
  | cons c cs ih =>
    have hc : c ≠ sep := fun e => h (by simp [e])
    have hcs : sep ∉ cs := fun e => h (by simp [e])
    rw [Split_cons_ne hc, ih hcs]
    simp

theorem Split_append_sep {a : Str} {sep : Char} (h : sep ∉ a) (t : Str) :
    Split (a ++ sep :: t) sep = a :: Split t sep := by
  induction a with
  | nil => simp [Split]
  | cons c cs ih =>
    have hc : c ≠ sep := fun e => h (by simp [e])
    have hcs : sep ∉ cs := fun e => h (by simp [e])
    rw [List.cons_append, Split_cons_ne hc, ih hcs]
    simp

/-- Splitting a concatenation: the last segment of the left part and the first segment of
the right part are glued together. -/
theorem Split_append (s t : Str) (sep : Char) :
    Split (s ++ t) sep
      = (Split s sep).dropLast
          ++ (((Split s sep).getLastD [] ++ (Split t sep).headD []) :: (Split t sep).tail) := by
  induction s with
  | nil =>
    have hne := Split_ne_nil t sep
    cases ht : Split t sep with
    | nil => exact absurd ht hne
    | cons seg segs => simp [Split, ht]
  | cons c cs ih =>
    have hne := Split_ne_nil cs sep
    by_cases hc : c = sep
    · subst hc
      rw [List.cons_append, Split_cons_sep, Split_cons_sep, ih]
      cases hs : Split cs c with
      | nil => exact absurd hs hne
      | cons seg segs => simp [List.dropLast]
    · rw [List.cons_append, Split_cons_ne hc, Split_cons_ne hc, ih]
      cases hs : Split cs sep with
      | nil => exact absurd hs hne
      | cons seg segs =>
        cases segs with
        | nil => simp
        | cons seg2 segs2 => simp

/-- The model of `strings.Split` agrees with the library's `List.splitOn`. -/
theorem Split_eq_splitOn (s : Str) (sep : Char) : Split s sep = s.splitOn sep := by
  induction s with
  | nil => simp [Split]
  | cons c cs ih =>
    have hne := Split_ne_nil cs sep
    rw [List.splitOn, List.splitOnP_cons]
    by_cases hc : c = sep
    · subst hc
      rw [Split_cons_sep, ih]
      simp [List.splitOn]
    · rw [Split_cons_ne hc, ← List.splitOn, ← ih]
      have : (c == sep) = false := by simpa using hc
      rw [this]
      cases hs : Split cs sep with
      | nil => exact absurd hs hne
      | cons seg segs => simp [List.modifyHead]

/-- The first segment has no separator; either it is the whole string, or the string is
that segment, a separator, and a rest that splits into the other segments. -/
theorem Split_eq_cons {s : Str} {sep : Char} {a : Str} {l : List Str}
    (h : Split s sep = a :: l) :
    sep ∉ a ∧ ((l = [] ∧ s = a) ∨ (l ≠ [] ∧ ∃ t, s = a ++ sep :: t ∧ Split t sep = l)) := by
  induction s generalizing a l with
  | nil =>
    simp only [Split, List.cons.injEq] at h
    obtain ⟨rfl, rfl⟩ := h
    simp
  | cons c cs ih =>
    by_cases hc : c = sep
    · subst hc
      rw [Split_cons_sep, List.cons.injEq] at h
      obtain ⟨rfl, rfl⟩ := h
      exact ⟨by simp, Or.inr ⟨Split_ne_nil cs c, cs, rfl, rfl⟩⟩
    · rw [Split_cons_ne hc, List.cons.injEq] at h
      obtain ⟨rfl, rfl⟩ := h
      have hne := Split_ne_nil cs sep
      cases hs : Split cs sep with
      | nil => exact absurd hs hne
      | cons seg segs =>
        obtain ⟨h1, h2⟩ := ih hs
        refine ⟨?_, ?_⟩
        · simp only [List.headD_cons, List.mem_cons, not_or]
          exact ⟨fun e => hc e.symm, h1⟩
        · rcases h2 with ⟨rfl, rfl⟩ | ⟨hl, t, rfl, ht⟩
          · exact Or.inl ⟨rfl, rfl⟩
          · exact Or.inr ⟨by simpa using hl, t, by simp, by simpa using ht⟩

end strings

/-! ## Facts about `strconv` -/

namespace strconv

theorem decimalFrom_cons (n : Nat) (c : Char) (cs : Str) :
    decimalFrom n (c :: cs) = decimalFrom (10 * n + (c.toNat - 48)) cs := rfl

theorem le_decimalFrom (s : Str) (n : Nat) : n ≤ decimalFrom n s := by
  induction s generalizing n with
  | nil => simp [decimalFrom]
  | cons c cs ih =>
    rw [decimalFrom_cons]
    exact le_trans (by omega) (ih _)

theorem digit_of_IsDigit {c : Char} (h : IsDigit c) : digit c = some (c.toNat - 48) := by
  unfold IsDigit at h
  simp [digit, h]

theorem digit_eq_none {c : Char} (h : ¬ IsDigit c) : digit c = none := by
  unfold IsDigit at h
  simp [digit, h]

/-- On digits whose value stays within `maxVal`, the loop computes that value. -/
theorem loop_of_digits {maxVal : Nat} (hmax : maxVal < 2 ^ 64) (s : Str) (n : Nat)
    (hd : ∀ c ∈ s, IsDigit c) (hv : decimalFrom n s ≤ maxVal) :
    ParseUint.loop maxVal s n = (decimalFrom n s, none) := by
  induction s generalizing n with
  | nil => simp [ParseUint.loop, decimalFrom]
  | cons c cs ih =>
    have hc : IsDigit c := hd c (by simp)
    have hcs : ∀ x ∈ cs, IsDigit x := fun x hx => hd x (by simp [hx])
    rw [decimalFrom_cons] at hv ⊢
    have hle := le_decimalFrom cs (10 * n + (c.toNat - 48))
    have hlt : 10 * n + (c.toNat - 48) < 2 ^ 64 := by omega
    have h1 : ¬ (n ≥ maxUint64 / 10 + 1) := by
      simp only [maxUint64]; omega
    have h2 : (n * 10) % 2 ^ 64 = n * 10 := Nat.mod_eq_of_lt (by omega)
    have h3 : (n * 10 + (c.toNat - 48)) % 2 ^ 64 = 10 * n + (c.toNat - 48) := by
      rw [Nat.mod_eq_of_lt (by omega)]; omega
    simp only [ParseUint.loop, digit_of_IsDigit hc, if_neg h1, h2, h3]
    rw [if_neg (by omega)]
    exact ih _ hcs hv

/-- A character that is no digit makes the loop stop with an error, whatever precedes it. -/
theorem loop_append_nondigit (maxVal : Nat) {c : Char} (hc : ¬ IsDigit c) (q r : Str) (n : Nat) :
    ParseUint.loop maxVal (r ++ c :: q) n = (0, some Err.ErrSyntax)
      ∨ ParseUint.loop maxVal (r ++ c :: q) n = (maxVal, some Err.ErrRange) := by
  induction r generalizing n with
  | nil => simp [ParseUint.loop, digit_eq_none hc]
  | cons a r ih =>
    simp only [List.cons_append, ParseUint.loop]
    split
    · simp
    · split
      · simp
      · split
        · simp
        · exact ih _

/-- An error of `ParseUint` is an error of `ParseInt`. -/
theorem ParseInt_err_of_ParseUint_err {s : Str} (hs : s ≠ [])
    (h : ParseUint (if s.head? = some '+' ∨ s.head? = some '-' then s.tail else s) IntSize
          = (0, some Err.ErrSyntax)
        ∨ ParseUint (if s.head? = some '+' ∨ s.head? = some '-' then s.tail else s) IntSize
          = (2 ^ IntSize - 1, some Err.ErrRange)) :
    (ParseInt s).2 ≠ none := by
  unfold ParseInt
  rw [if_neg hs]
  rcases h with h | h
  · simp [h]
  · simp only [h]
    by_cases hneg : s.head? = some '-'
    · simp [hneg, IntSize]
    · simp [hneg, IntSize]

theorem Atoi_err_iff (s : Str) : (Atoi s).2 = none ↔ (ParseInt s).2 = none := by
  simp [Atoi]

/-- A character that is no digit, anywhere but in front, makes `Atoi` fail. -/
theorem Atoi_append_nondigit {s : Str} (hs : s ≠ []) {c : Char} (hc : ¬ IsDigit c) (q : Str) :
    (Atoi (s ++ c :: q)).2 ≠ none := by
  rw [Ne, Atoi_err_iff]
  cases s with
  | nil => exact absurd rfl hs
  | cons a r =>
    apply ParseInt_err_of_ParseUint_err (by simp)
    by_cases hsign : a = '+' ∨ a = '-'
    · have : ((a :: r ++ c :: q).head? = some '+' ∨ (a :: r ++ c :: q).head? = some '-') := by
        simpa using hsign
      rw [if_pos this]
      simp only [List.cons_append, List.tail_cons, ParseUint]
      rw [if_neg (by simp)]
      exact loop_append_nondigit _ hc q r 0
    · have : ¬ ((a :: r ++ c :: q).head? = some '+' ∨ (a :: r ++ c :: q).head? = some '-') := by
        simpa using hsign
      rw [if_neg this]
      simp only [ParseUint]
      rw [if_neg (by simp)]
      exact loop_append_nondigit _ hc q (a :: r) 0

theorem toInt64_of_lt {n : Nat} (h : n < 2 ^ 63) : toInt64 (n : Int) = n := by
  unfold toInt64
  omega

/-- Every value `Atoi` returns without an error is in the range of a 64-bit `int`. -/
theorem Atoi_range {s : Str} (h : (Atoi s).2 = none) :
    -(2 : Int) ^ 63 ≤ (Atoi s).1 ∧ (Atoi s).1 < 2 ^ 63 := by
  have hr : ∀ z : Int, -(2 : Int) ^ 63 ≤ toInt64 z ∧ toInt64 z < 2 ^ 63 := by
    intro z; unfold toInt64; omega
  rw [Atoi_err_iff] at h
  have hz : ∃ z, (ParseInt s).1 = toInt64 z := by
    revert h
    unfold ParseInt
    dsimp only
    split_ifs <;> first
      | (intro _; exact ⟨_, rfl⟩)
      | (intro h; simp at h)
  obtain ⟨z, hz⟩ := hz
  simp only [Atoi, hz]
  exact hr z

theorem digit_eq_some {c : Char} {d : Nat} (h : digit c = some d) :
    IsDigit c ∧ d = c.toNat - 48 := by
  unfold digit at h
  split at h
  · rename_i hc
    exact ⟨hc, by simpa using h.symm⟩
  · simp at h

/-- The three ways the loop can end: a syntax error, a range error, or the value of a
string of digits. -/
theorem loop_result (maxVal : Nat) (s : Str) (n : Nat)
    (hn : n ≤ maxVal) :
    ParseUint.loop maxVal s n = (0, some Err.ErrSyntax)
      ∨ ParseUint.loop maxVal s n = (maxVal, some Err.ErrRange)
      ∨ (ParseUint.loop maxVal s n = (decimalFrom n s, none)
          ∧ (∀ c ∈ s, IsDigit c) ∧ decimalFrom n s ≤ maxVal) := by
  induction s generalizing n with
  | nil => exact Or.inr (Or.inr ⟨rfl, by simp, hn⟩)
  | cons c cs ih =>
    simp only [ParseUint.loop]
    cases hd : digit c with
    | none => exact Or.inl rfl
    | some d =>
      obtain ⟨hc, hdv⟩ := digit_eq_some hd
      have hd9 : d ≤ 9 := by unfold IsDigit at hc; omega
      dsimp only
      split
      · exact Or.inr (Or.inl rfl)
      · rename_i hcut
        simp only [maxUint64] at hcut
        have hm : (n * 10) % 2 ^ 64 = n * 10 := Nat.mod_eq_of_lt (by omega)
        rw [hm]
        split
        · exact Or.inr (Or.inl rfl)
        · rename_i hov
          have hn1 : (n * 10 + d) % 2 ^ 64 = 10 * n + d := by omega
          rw [hn1] at hov ⊢
          rcases ih (10 * n + d) (by omega) with h | h | ⟨h1, h2, h3⟩
          · exact Or.inl h
          · exact Or.inr (Or.inl h)
          · refine Or.inr (Or.inr ⟨?_, ?_, ?_⟩)
            · rw [decimalFrom_cons, ← hdv]; exact h1
            · intro x hx
              rcases List.mem_cons.1 hx with rfl | hx
              · exact hc
              · exact h2 x hx
            · rw [decimalFrom_cons, ← hdv]; exact h3


/-- What `Atoi` accepts: exactly the base-10 integers that fit a 64-bit `int`. -/
theorem Atoi_ok_iff (s : Str) : (Atoi s).2 = none ↔ IsIntLiteral s := by
  rw [Atoi_err_iff]
  unfold IsIntLiteral ParseInt
  by_cases hs : s = []
  · subst hs
    simp
  rw [if_neg hs]
  dsimp only
  generalize hb : (if s.head? = some '+' ∨ s.head? = some '-' then s.tail else s) = body
  by_cases hbody : body = []
  · subst hbody
    simp [ParseUint]
  have hU : ParseUint body IntSize = ParseUint.loop (2 ^ 64 - 1) body 0 := by
    simp [ParseUint, hbody, IntSize]
  rw [hU]
  constructor
  · intro h
    rcases loop_result (2 ^ 64 - 1) body 0 (by omega) with hl | hl | ⟨hl, hdig, _⟩
    · rw [hl] at h
      simp at h
    · rw [hl] at h
      by_cases hneg : s.head? = some '-' <;> simp [hneg, IntSize] at h
    · rw [hl] at h
      refine ⟨hbody, hdig, ?_⟩
      by_cases hneg : s.head? = some '-'
      · simp only [hneg, if_true]
        by_contra hgt
        simp [hneg, IntSize] at h
        have : ¬ (9223372036854775808 < decimalFrom 0 body) := by
          intro h3
          simp [h3] at h
        exact hgt (by unfold decimalValue; omega)
      · simp only [hneg, if_false]
        by_contra hgt
        have h3 : 9223372036854775808 ≤ decimalFrom 0 body := by
          unfold decimalValue at hgt; omega
        simp [hneg, IntSize, h3] at h
  · rintro ⟨_, hdig, hrange⟩
    have hv : decimalFrom 0 body ≤ 2 ^ 64 - 1 := by
      unfold decimalValue at hrange
      split at hrange <;> omega
    rw [loop_of_digits (by omega) body 0 hdig hv]
    by_cases hneg : s.head? = some '-'
    · rw [if_pos hneg] at hrange
      have h3 : ¬ (9223372036854775808 < decimalFrom 0 body) := by
        unfold decimalValue at hrange; omega
      simp [hneg, IntSize, h3]
    · rw [if_neg hneg] at hrange
      have h3 : ¬ (9223372036854775808 ≤ decimalFrom 0 body) := by
        unfold decimalValue at hrange; omega
      simp [hneg, IntSize, h3]

/-- On a string of decimal digits whose value fits, `Atoi` returns that value. -/
theorem Atoi_of_digits {s : Str} (hs : s ≠ []) (hd : ∀ c ∈ s, IsDigit c)
    (hv : decimalValue s < 2 ^ 63) : Atoi s = ((decimalValue s : Int), none) := by
  cases s with
  | nil => exact absurd rfl hs
  | cons a r =>
    have ha : IsDigit a := hd a (by simp)
    have hsign : ¬ ((a :: r).head? = some '+' ∨ (a :: r).head? = some '-') := by
      unfold IsDigit at ha
      simp only [List.head?_cons, Option.some.injEq]
      rintro (h | h) <;> subst h <;> revert ha <;> decide
    have hloop := loop_of_digits (show 2 ^ IntSize - 1 < 2 ^ 64 by simp [IntSize])
      (a :: r) 0 hd (by unfold decimalValue at hv; simp only [IntSize]; omega)
    have hneg : ¬ ((a :: r).head? = some '-') := fun h => hsign (Or.inr h)
    have hU : ParseUint (a :: r) IntSize = (decimalValue (a :: r), none) := by
      simp only [ParseUint]
      rw [if_neg (by simp)]
      exact hloop
    simp only [Atoi, ParseInt]
    rw [if_neg (by simp), if_neg hsign, hU]
    simp only [decide_eq_true_eq, hneg, IntSize]
    have : ¬ (9223372036854775808 ≤ decimalValue (a :: r)) := by omega
    simp [this, toInt64_of_lt hv]

end strconv

/-! ## Facts about `Parse` -/

namespace parser

open strings strconv

theorem length_eq_four {α : Type} {l : List α} (h : l.length = 4) :
    ∃ a b c d, l = [a, b, c, d] := by
  match l, h with
  | [a, b, c, d], _ => exact ⟨a, b, c, d, rfl⟩

/-- What `Parse` computes once the prefix and the four segments are known. -/
theorem Parse_of_segments {url o r k n : Str} (hp : HasPrefix url githubPrefix = true)
    (hs : Split (TrimPrefix url githubPrefix) '/' = [o, r, k, n]) :
    Parse url =
      match Atoi n with
      | (_, some err) => .error (.invalidNumber err)
      | (number, none) =>
        if k = "issues".toList then .ok ⟨ResourceTypeIssue, o, r, number, url⟩
        else if k = "pull".toList then .ok ⟨ResourceTypePullRequest, o, r, number, url⟩
        else if k = "discussions".toList then .ok ⟨ResourceTypeDiscussion, o, r, number, url⟩
        else .error (.unsupportedType k) := by
  simp [Parse, hp, hs]

theorem Parse_of_other_start {url : Str} (hp : HasPrefix url githubPrefix = false) :
    Parse url = .error (.invalidFormat url) := by
  simp [Parse, hp]

theorem Parse_of_length_ne {url : Str} (hp : HasPrefix url githubPrefix = true)
    (hl : (Split (TrimPrefix url githubPrefix) '/').length ≠ 4) :
    Parse url = .error (.invalidFormat url) := by
  simp [Parse, hp, hl]

/-- What a successful `Parse` tells about its input. -/
theorem Parse_ok_inv {url : Str} {info : URLInfo} (h : Parse url = .ok info) :
    HasPrefix url githubPrefix = true ∧
    ∃ o r k n v, Split (TrimPrefix url githubPrefix) '/' = [o, r, k, n] ∧
      Atoi n = (v, none) ∧
      ((k = "issues".toList ∧ info = ⟨ResourceTypeIssue, o, r, v, url⟩)
        ∨ (k = "pull".toList ∧ info = ⟨ResourceTypePullRequest, o, r, v, url⟩)
        ∨ (k = "discussions".toList ∧ info = ⟨ResourceTypeDiscussion, o, r, v, url⟩)) := by
  by_cases hp : HasPrefix url githubPrefix = true
  swap
  · have hp2 : HasPrefix url githubPrefix = false := by simpa using hp
    rw [Parse_of_other_start hp2] at h
    exact absurd h (by simp)
  by_cases hl : (Split (TrimPrefix url githubPrefix) '/').length = 4
  swap
  · rw [Parse_of_length_ne hp hl] at h
    exact absurd h (by simp)
  obtain ⟨o, r, k, n, hs⟩ := length_eq_four hl
  refine ⟨hp, o, r, k, n, ?_⟩
  rw [Parse_of_segments hp hs] at h
  rcases hA : Atoi n with ⟨v, _ | err⟩
  · refine ⟨v, hs, rfl, ?_⟩
    rw [hA] at h
    dsimp only at h
    split_ifs at h with h1 h2 h3
    · exact Or.inl ⟨h1, (Except.ok.inj h).symm⟩
    · exact Or.inr (Or.inl ⟨h2, (Except.ok.inj h).symm⟩)
    · exact Or.inr (Or.inr ⟨h3, (Except.ok.inj h).symm⟩)
  · rw [hA] at h
    exact absurd h (by simp)

/-- The guards of `Parse`, in the order of the code: `Parse` fails exactly when one of its
four tests fails. -/
theorem Parse_error_iff_guards (url : Str) :
    ((∃ e, Parse url = .error e) ↔
      (HasPrefix url "https://github.com/".toList = false
        ∨ (Split (TrimPrefix url "https://github.com/".toList) '/').length ≠ 4
        ∨ (Split (TrimPrefix url "https://github.com/".toList) '/').getD 2 []
            ∉ ["issues".toList, "pull".toList, "discussions".toList]
        ∨ (Atoi ((Split (TrimPrefix url "https://github.com/".toList) '/').getD 3 [])).2
            ≠ none))
    ∧ ((∃ info, Parse url = .ok info) ↔
      ¬ (HasPrefix url "https://github.com/".toList = false
        ∨ (Split (TrimPrefix url "https://github.com/".toList) '/').length ≠ 4
        ∨ (Split (TrimPrefix url "https://github.com/".toList) '/').getD 2 []
            ∉ ["issues".toList, "pull".toList, "discussions".toList]
        ∨ (Atoi ((Split (TrimPrefix url "https://github.com/".toList) '/').getD 3 [])).2
            ≠ none)) := by
  change ((∃ e, Parse url = .error e) ↔
      (HasPrefix url githubPrefix = false
        ∨ (Split (TrimPrefix url githubPrefix) '/').length ≠ 4
        ∨ (Split (TrimPrefix url githubPrefix) '/').getD 2 []
            ∉ ["issues".toList, "pull".toList, "discussions".toList]
        ∨ (Atoi ((Split (TrimPrefix url githubPrefix) '/').getD 3 [])).2 ≠ none))
    ∧ ((∃ info, Parse url = .ok info) ↔
      ¬ (HasPrefix url githubPrefix = false
        ∨ (Split (TrimPrefix url githubPrefix) '/').length ≠ 4
        ∨ (Split (TrimPrefix url githubPrefix) '/').getD 2 []
            ∉ ["issues".toList, "pull".toList, "discussions".toList]
        ∨ (Atoi ((Split (TrimPrefix url githubPrefix) '/').getD 3 [])).2 ≠ none))
  by_cases hp : HasPrefix url githubPrefix = true
  swap
  · have hp2 : HasPrefix url githubPrefix = false := by simpa using hp
    simp [Parse_of_other_start hp2, hp2]
  by_cases hl : (Split (TrimPrefix url githubPrefix) '/').length = 4
  swap
  · simp [Parse_of_length_ne hp hl, hl]
  obtain ⟨o, r, k, n, hs⟩ := length_eq_four hl
  rw [Parse_of_segments hp hs, hs]
  simp only [hp, List.length_cons, List.length_nil, List.getD_cons_succ, List.getD_cons_zero]
  rcases hA : Atoi n with ⟨v, _ | err⟩
  · dsimp only
    split_ifs with h1 h2 h3 <;> simp_all
  · simp

theorem Atoi_nil_err : (Atoi []).2 ≠ none := by decide

/-- An accepted URL with text appended: the prefix stays, and the segments are the old
ones with the first new segment glued to the number, followed by the other new ones. -/
theorem Split_of_append {url : Str} {o r k n : Str} (hp : HasPrefix url githubPrefix = true)
    (hs : Split (TrimPrefix url githubPrefix) '/' = [o, r, k, n]) (t : Str) :
    HasPrefix (url ++ t) githubPrefix = true ∧
    Split (TrimPrefix (url ++ t) githubPrefix) '/'
      = o :: r :: k :: (n ++ (Split t '/').headD []) :: (Split t '/').tail := by
  have hu := eq_append_of_HasPrefix hp
  have hu2 : url ++ t = githubPrefix ++ (TrimPrefix url githubPrefix ++ t) := by
    rw [← List.append_assoc, ← hu]
  rw [hu2]
  refine ⟨HasPrefix_append _ _, ?_⟩
  rw [TrimPrefix_append, Split_append, hs]
  simp

theorem Split_slash : Split ['/'] '/' = [[], []] := by decide

theorem HasPrefix_iff_starts (url : Str) :
    HasPrefix url githubPrefix = true ↔ "https://github.com/".toList <+: url := by
  simp [HasPrefix, githubPrefix]

theorem pathSegments_eq_Split {url : Str} (hp : HasPrefix url githubPrefix = true) :
    pathSegments url = Split (TrimPrefix url githubPrefix) '/' := by
  rw [Split_eq_splitOn, TrimPrefix, if_pos hp]
  rfl

/-- A base-10 integer has no `/` in it. -/
theorem not_mem_of_IsIntLiteral {n : Str} (h : IsIntLiteral n) : '/' ∉ n := by
  obtain ⟨_, hdig, _⟩ := h
  have hd : ∀ l : Str, (∀ c ∈ l, IsDigit c) → '/' ∉ l :=
    fun l hl hm => absurd (hl _ hm) (by decide)
  cases n with
  | nil => simp
  | cons a t =>
    by_cases hsign : (a :: t).head? = some '+' ∨ (a :: t).head? = some '-'
    · rw [if_pos hsign] at hdig
      have ha : a ≠ '/' := by
        simp only [List.head?_cons, Option.some.injEq] at hsign
        rcases hsign with rfl | rfl <;> decide
      simp only [List.tail_cons] at hdig
      intro hm
      rcases List.mem_cons.1 hm with e | e
      · exact ha e.symm
      · exact hd t hdig e
    · rw [if_neg hsign] at hdig
      exact hd _ hdig

/-- The URLs `Parse` accepts, without reference to the code: the prefix, an owner and a
repo without `/`, one of the three keywords, and a base-10 integer that fits `int`. -/
theorem Parse_ok_iff_shape (url : Str) :
    (∃ info, Parse url = .ok info) ↔
      ∃ owner repo kw number : Str,
        '/' ∉ owner ∧ '/' ∉ repo
          ∧ kw ∈ ["issues".toList, "pull".toList, "discussions".toList]
          ∧ IsIntLiteral number
          ∧ url = "https://github.com/".toList ++ owner ++ "/".toList ++ repo
              ++ "/".toList ++ kw ++ "/".toList ++ number := by
  constructor
  · rintro ⟨info, h⟩
    obtain ⟨hp, o, r, k, n, v, hs, hA, hk⟩ := Parse_ok_inv h
    obtain ⟨ho, h1⟩ := Split_eq_cons hs
    rcases h1 with ⟨hl, _⟩ | ⟨_, t1, e1, hs1⟩
    · exact absurd hl (by simp)
    obtain ⟨hr, h2⟩ := Split_eq_cons hs1
    rcases h2 with ⟨hl, _⟩ | ⟨_, t2, e2, hs2⟩
    · exact absurd hl (by simp)
    obtain ⟨_, h3⟩ := Split_eq_cons hs2
    rcases h3 with ⟨hl, _⟩ | ⟨_, t3, e3, hs3⟩
    · exact absurd hl (by simp)
    obtain ⟨_, h4⟩ := Split_eq_cons hs3
    rcases h4 with ⟨_, e4⟩ | ⟨hl, _⟩
    swap
    · exact absurd rfl hl
    refine ⟨o, r, k, n, ho, hr, ?_, (Atoi_ok_iff n).1 (by rw [hA]), ?_⟩
    · rcases hk with ⟨e, _⟩ | ⟨e, _⟩ | ⟨e, _⟩ <;> simp [e]
    · have hu := eq_append_of_HasPrefix hp
      rw [e1, e2, e3, e4] at hu
      rw [hu]
      simp [githubPrefix]
  · rintro ⟨owner, repo, kw, number, ho, hr, hk, hn, rfl⟩
    have hnum : '/' ∉ number := not_mem_of_IsIntLiteral hn
    have hkw : '/' ∉ kw := by
      simp only [List.mem_cons, List.mem_singleton, List.not_mem_nil, or_false] at hk
      rcases hk with h | h | h <;> subst h <;> decide
    have hurl : "https://github.com/".toList ++ owner ++ "/".toList ++ repo ++ "/".toList
        ++ kw ++ "/".toList ++ number
        = githubPrefix ++ (owner ++ '/' :: (repo ++ '/' :: (kw ++ '/' :: number))) := by
      simp [githubPrefix]
    rw [hurl]
    have hs : Split (TrimPrefix (githubPrefix
        ++ (owner ++ '/' :: (repo ++ '/' :: (kw ++ '/' :: number)))) githubPrefix) '/'
        = [owner, repo, kw, number] := by
      rw [TrimPrefix_append, Split_append_sep ho, Split_append_sep hr, Split_append_sep hkw,
        Split_of_not_mem hnum]
    rw [Parse_of_segments (HasPrefix_append _ _) hs]
    have hA := (Atoi_ok_iff number).2 hn
    rcases hA2 : Atoi number with ⟨v, _ | err⟩
    · simp only [List.mem_cons, List.mem_singleton, List.not_mem_nil, or_false] at hk
      rcases hk with h | h | h <;> subst h <;> simp
    · rw [hA2] at hA
      simp at hA

end parser

/-! ## Facts about the client -/

namespace github

variable {Time Body Ctx σ : Type}

theorem foldl_labels (ls : List APILabel) (issue : Issue Time) :
    ls.foldl (fun issue label => { issue with Labels := issue.Labels ++ [label.Name] }) issue
      = { issue with Labels := issue.Labels ++ ls.map (fun l => l.Name) } := by
  induction ls generalizing issue with
  | nil => simp
  | cons l ls ih => simp [ih]

theorem foldl_assignees (as : List APIAssignee) (issue : Issue Time) :
    as.foldl (fun issue assignee =>
        { issue with Assignees := issue.Assignees ++ [assignee.Login] }) issue
      = { issue with Assignees := issue.Assignees ++ as.map (fun a => a.Login) } := by
  induction as generalizing issue with
  | nil => simp
  | cons a as ih => simp [ih]

theorem foldl_snoc_map {α β : Type} (f : α → β) (xs : List α) (acc : List β) :
    xs.foldl (fun acc x => acc ++ [f x]) acc = acc ++ xs.map f := by
  induction xs generalizing acc with
  | nil => simp
  | cons x xs ih => simp [ih]

/-- With the request built, a 200 response and a payload that decodes, `fetchIssue`
returns the issue of the specification. -/
theorem fetchIssue_ok (L : Lib Time Body Ctx) (c : clientImpl σ Body Ctx) (ctx : Ctx)
    (url : Str) (s s1 : σ) (req : Request Ctx) (resp : Response Body) (p : APIIssue)
    (hreq : L.NewRequestWithContext ctx "GET".toList url = .ok req)
    (hdo : c.httpClient.Do (sentRequest c req) s = (.ok resp, s1))
    (h200 : resp.StatusCode = 200)
    (hdec : L.decodeIssue resp.Body = .ok p) :
    fetchIssue L c ctx url s = (.ok (issueOf L p), s1) := by
  simp -zeta only [fetchIssue, hreq]
  lift_lets
  intro req1 req2
  have hdo2 : c.httpClient.Do req2 s = (.ok resp, s1) := hdo
  simp -zeta only [hdo2, h200, StatusOK, hdec, ne_eq, not_true_eq_false, if_false,
    foldl_labels, foldl_assignees, issueOf, parsedOrZero, parsedOrUnset]
  cases L.timeParse RFC3339 p.CreatedAt <;> cases L.timeParse RFC3339 p.UpdatedAt <;>
    cases p.Milestone <;> cases p.ClosedAt <;> simp -zeta only [] <;>
    first
      | rfl
      | (rename_i v; cases L.timeParse RFC3339 v <;> rfl)

/-- With the request built, a 200 response and an array that decodes, `fetchComments`
returns the comments of the specification, in the order of the array. -/
theorem fetchComments_ok (L : Lib Time Body Ctx) (c : clientImpl σ Body Ctx) (ctx : Ctx)
    (url : Str) (s s1 : σ) (req : Request Ctx) (resp : Response Body) (arr : List APIComment)
    (hreq : L.NewRequestWithContext ctx "GET".toList url = .ok req)
    (hdo : c.httpClient.Do (sentRequest c req) s = (.ok resp, s1))
    (h200 : resp.StatusCode = 200)
    (hdec : L.decodeComments resp.Body = .ok arr) :
    fetchComments L c ctx url s = (.ok (arr.map (commentOf L)), s1) := by
  simp -zeta only [fetchComments, hreq]
  lift_lets
  intro req1 req2
  have hdo2 : c.httpClient.Do req2 s = (.ok resp, s1) := hdo
  simp -zeta only [hdo2, h200, StatusOK, hdec, ne_eq, not_true_eq_false, if_false]
  dsimp only
  rw [foldl_snoc_map]
  simp only [List.nil_append, Prod.mk.injEq, Except.ok.injEq, and_true]
  apply List.map_congr_left
  intro a _
  simp only [commentOf, parsedOrZero]
  cases L.timeParse RFC3339 a.CreatedAt <;> cases L.timeParse RFC3339 a.UpdatedAt <;> rfl

/-- A response that is not 200 makes `fetchIssue` fail with the status error. -/
theorem fetchIssue_status (L : Lib Time Body Ctx) (c : clientImpl σ Body Ctx) (ctx : Ctx)
    (url : Str) (s s1 : σ) (req : Request Ctx) (resp : Response Body)
    (hreq : L.NewRequestWithContext ctx "GET".toList url = .ok req)
    (hdo : c.httpClient.Do (sentRequest c req) s = (.ok resp, s1))
    (hcode : resp.StatusCode ≠ 200) :
    fetchIssue L c ctx url s
      = (.error (.unexpectedStatus resp.StatusCode (L.decodeErrResp resp.Body).Message),
          s1) := by
  simp -zeta only [fetchIssue, hreq]
  lift_lets
  intro req1 req2
  have hdo2 : c.httpClient.Do req2 s = (.ok resp, s1) := hdo
  simp -zeta only [hdo2, StatusOK, ne_eq, hcode, not_false_eq_true, if_true]

/-- A response that is not 200 makes `fetchComments` fail with the status error. -/
theorem fetchComments_status (L : Lib Time Body Ctx) (c : clientImpl σ Body Ctx) (ctx : Ctx)
    (url : Str) (s s1 : σ) (req : Request Ctx) (resp : Response Body)
    (hreq : L.NewRequestWithContext ctx "GET".toList url = .ok req)
    (hdo : c.httpClient.Do (sentRequest c req) s = (.ok resp, s1))
    (hcode : resp.StatusCode ≠ 200) :
    fetchComments L c ctx url s
      = (.error (.unexpectedStatus resp.StatusCode (L.decodeErrResp resp.Body).Message),
          s1) := by
  simp -zeta only [fetchComments, hreq]
  lift_lets
  intro req1 req2
  have hdo2 : c.httpClient.Do req2 s = (.ok resp, s1) := hdo
  simp -zeta only [hdo2, StatusOK, ne_eq, hcode, not_false_eq_true, if_true]

/-- The body of `FetchIssue` over the two endpoints. -/
theorem FetchIssue_eq (L : Lib Time Body Ctx) (c : clientImpl σ Body Ctx) (ctx : Ctx)
    (owner repo : Str) (number : Int) (s : σ) :
    FetchIssue L c ctx owner repo number s =
      match fetchIssue L c ctx (issueEndpoint c.baseURL owner repo number) s with
      | (.error err, s1) => (.error (.fetchIssue err), s1)
      | (.ok issue, s1) =>
        match fetchComments L c ctx (commentsEndpoint c.baseURL owner repo number) s1 with
        | (.error err, s2) => (.error (.fetchComments err), s2)
        | (.ok comments, s2) =>
          (.ok { issue with Comments := comments, CommentsCount := (comments.length : Int) },
            s2) := rfl

theorem FetchIssue_of_fetchIssue_error {L : Lib Time Body Ctx} {c : clientImpl σ Body Ctx}
    {ctx : Ctx} {owner repo : Str} {number : Int} {s s1 : σ} {e : Error}
    (h : fetchIssue L c ctx (issueEndpoint c.baseURL owner repo number) s = (.error e, s1)) :
    FetchIssue L c ctx owner repo number s = (.error (.fetchIssue e), s1) := by
  rw [FetchIssue_eq, h]

theorem FetchIssue_of_fetchComments_error {L : Lib Time Body Ctx}
    {c : clientImpl σ Body Ctx} {ctx : Ctx} {owner repo : Str} {number : Int} {s s1 s2 : σ}
    {issue : Issue Time} {e : Error}
    (h : fetchIssue L c ctx (issueEndpoint c.baseURL owner repo number) s = (.ok issue, s1))
    (h2 : fetchComments L c ctx (commentsEndpoint c.baseURL owner repo number) s1
            = (.error e, s2)) :
    FetchIssue L c ctx owner repo number s = (.error (.fetchComments e), s2) := by
  rw [FetchIssue_eq, h]
  dsimp only
  rw [h2]

theorem FetchIssue_of_ok {L : Lib Time Body Ctx} {c : clientImpl σ Body Ctx}
    {ctx : Ctx} {owner repo : Str} {number : Int} {s s1 s2 : σ}
    {issue : Issue Time} {comments : List (Comment Time)}
    (h : fetchIssue L c ctx (issueEndpoint c.baseURL owner repo number) s = (.ok issue, s1))
    (h2 : fetchComments L c ctx (commentsEndpoint c.baseURL owner repo number) s1
            = (.ok comments, s2)) :
    FetchIssue L c ctx owner repo number s
      = (.ok { issue with Comments := comments, CommentsCount := (comments.length : Int) },
          s2) := by
  rw [FetchIssue_eq, h]
  dsimp only
  rw [h2]

end github

/-! ## The claims about `Parse` -/

namespace parser

open strings strconv

/-- C1 (as amended): for every owner and repo without `/`, every keyword among `issues`,
`pull`, `discussions` and every positive base-10 integer string whose value is below
`2^63`, `Parse` of `https://github.com/owner/repo/keyword/number` succeeds with the
keyword's mapped type, that owner, that repo, the number the string denotes, and the
input unchanged as `Original`. -/
theorem Parse_valid_url (owner repo kw number : Str) (rt : ResourceType)
    (ho : '/' ∉ owner) (hr : '/' ∉ repo)
    (hk : (kw, rt) ∈ [("issues".toList, ResourceTypeIssue),
                      ("pull".toList, ResourceTypePullRequest),
                      ("discussions".toList, ResourceTypeDiscussion)])
    (hn : IsPositiveDecimal number) (hfit : decimalValue number < 2 ^ 63) :
    Parse ("https://github.com/".toList ++ owner ++ "/".toList ++ repo ++ "/".toList
            ++ kw ++ "/".toList ++ number)
      = .ok ⟨rt, owner, repo, (decimalValue number : Int),
          "https://github.com/".toList ++ owner ++ "/".toList ++ repo ++ "/".toList
            ++ kw ++ "/".toList ++ number⟩ := by
  obtain ⟨hne, hdig, _⟩ := hn
  have hnum : '/' ∉ number := fun h => absurd (hdig _ h) (by decide)
  have hkw : '/' ∉ kw := by
    simp only [List.mem_cons, Prod.mk.injEq, List.mem_singleton, List.not_mem_nil,
      or_false] at hk
    rcases hk with ⟨h, _⟩ | ⟨h, _⟩ | ⟨h, _⟩ <;> subst h <;> decide
  have hurl : "https://github.com/".toList ++ owner ++ "/".toList ++ repo ++ "/".toList
      ++ kw ++ "/".toList ++ number
      = githubPrefix ++ (owner ++ '/' :: (repo ++ '/' :: (kw ++ '/' :: number))) := by
    simp [githubPrefix]
  rw [hurl]
  have hs : Split (TrimPrefix (githubPrefix
      ++ (owner ++ '/' :: (repo ++ '/' :: (kw ++ '/' :: number)))) githubPrefix) '/'
      = [owner, repo, kw, number] := by
    rw [TrimPrefix_append, Split_append_sep ho, Split_append_sep hr, Split_append_sep hkw,
      Split_of_not_mem hnum]
  rw [Parse_of_segments (HasPrefix_append _ _) hs, Atoi_of_digits hne hdig hfit]
  simp only [List.mem_cons, Prod.mk.injEq, List.mem_singleton, List.not_mem_nil,
    or_false] at hk
  rcases hk with ⟨h, h2⟩ | ⟨h, h2⟩ | ⟨h, h2⟩ <;> subst h <;> subst h2 <;> simp

/-- The round trip on the issue URL of the test table. -/
theorem Parse_valid_url_witness :
    IsPositiveDecimal "12345".toList ∧
    Parse ("https://github.com/".toList ++ "golang".toList ++ "/".toList ++ "go".toList
            ++ "/".toList ++ "issues".toList ++ "/".toList ++ "12345".toList)
      = .ok ⟨ResourceTypeIssue, "golang".toList, "go".toList,
          (decimalValue "12345".toList : Int),
          "https://github.com/golang/go/issues/12345".toList⟩ :=
  ⟨by decide,
   Parse_valid_url "golang".toList "go".toList "issues".toList "12345".toList
     ResourceTypeIssue (by decide) (by decide) (by decide) (by decide) (by decide)⟩

/-- C1 as stated fails: `9223372036854775808` is a positive base-10 integer string, yet
`strconv.Atoi` reports a range error for it and `Parse` fails. -/
theorem Parse_valid_url_counterexample :
    IsPositiveDecimal "9223372036854775808".toList ∧
    decimalValue "9223372036854775808".toList = 2 ^ 63 ∧
    Parse "https://github.com/golang/go/issues/9223372036854775808".toList
      = .error (.invalidNumber
          ⟨"Atoi".toList, "9223372036854775808".toList, Err.ErrRange⟩) :=
  ⟨by decide, by decide, by rfl⟩

/-- C2 (as amended): `Parse` fails exactly when the URL does not start with
`https://github.com/`, or the text after that prefix does not split at `/` into exactly
four segments, or the third segment is none of `issues`, `pull`, `discussions`, or the
fourth segment is not a base-10 integer that fits `int` (an optional sign, then decimal
digits, with a value from `-2^63` to `2^63 - 1`); in every other case `Parse` succeeds,
and these are the URLs made of the prefix, an owner and a repo without `/`, a keyword and
such an integer. -/
theorem Parse_fails_iff (url : Str) :
    ((∃ e, Parse url = .error e) ↔
      (¬ "https://github.com/".toList <+: url
        ∨ (pathSegments url).length ≠ 4
        ∨ (pathSegments url).getD 2 [] ∉ ["issues".toList, "pull".toList, "discussions".toList]
        ∨ ¬ IsIntLiteral ((pathSegments url).getD 3 [])))
    ∧ ((∃ info, Parse url = .ok info) ↔
      ¬ (¬ "https://github.com/".toList <+: url
        ∨ (pathSegments url).length ≠ 4
        ∨ (pathSegments url).getD 2 [] ∉ ["issues".toList, "pull".toList, "discussions".toList]
        ∨ ¬ IsIntLiteral ((pathSegments url).getD 3 [])))
    ∧ ((∃ info, Parse url = .ok info) ↔
      ∃ owner repo kw number : Str,
        '/' ∉ owner ∧ '/' ∉ repo
          ∧ kw ∈ ["issues".toList, "pull".toList, "discussions".toList]
          ∧ IsIntLiteral number
          ∧ url = "https://github.com/".toList ++ owner ++ "/".toList ++ repo
              ++ "/".toList ++ kw ++ "/".toList ++ number) := by
  have key : (HasPrefix url githubPrefix = false
        ∨ (Split (TrimPrefix url githubPrefix) '/').length ≠ 4
        ∨ (Split (TrimPrefix url githubPrefix) '/').getD 2 []
            ∉ ["issues".toList, "pull".toList, "discussions".toList]
        ∨ (Atoi ((Split (TrimPrefix url githubPrefix) '/').getD 3 [])).2 ≠ none)
      ↔ (¬ "https://github.com/".toList <+: url
        ∨ (pathSegments url).length ≠ 4
        ∨ (pathSegments url).getD 2 [] ∉ ["issues".toList, "pull".toList, "discussions".toList]
        ∨ ¬ IsIntLiteral ((pathSegments url).getD 3 [])) := by
    by_cases hp : HasPrefix url githubPrefix = true
    · have hp2 : ¬ ¬ "https://github.com/".toList <+: url :=
        not_not.2 ((HasPrefix_iff_starts url).1 hp)
      have hp3 : ¬ (HasPrefix url githubPrefix = false) := by rw [hp]; simp
      rw [← pathSegments_eq_Split hp]
      have hA := Atoi_ok_iff ((pathSegments url).getD 3 [])
      simp only [ne_eq]
      tauto
    · have hp2 : ¬ "https://github.com/".toList <+: url :=
        fun h => hp ((HasPrefix_iff_starts url).2 h)
      have hp3 : HasPrefix url githubPrefix = false := by simpa using hp
      exact ⟨fun _ => Or.inl hp2, fun _ => Or.inl hp3⟩
  exact ⟨(Parse_error_iff_guards url).1.trans key,
    (Parse_error_iff_guards url).2.trans (not_congr key), Parse_ok_iff_shape url⟩

/-- The URL without a number of the test table: its fourth segment is empty, which is no
integer, so `Parse` fails. -/
theorem Parse_fails_iff_witness :
    pathSegments "https://github.com/golang/go/issues/".toList
        = ["golang".toList, "go".toList, "issues".toList, []]
      ∧ ¬ IsIntLiteral []
      ∧ ∃ e, Parse "https://github.com/golang/go/issues/".toList = .error e :=
  ⟨by rfl, by decide,
   (Parse_fails_iff "https://github.com/golang/go/issues/".toList).1.2
     (Or.inr (Or.inr (Or.inr (by decide))))⟩

/-- C2 as stated fails: `99999999999999999999` is a base-10 integer, the URL has the
prefix, four segments and the keyword `pull`, so none of the four conditions holds, and
yet `Parse` fails, with the range error of `strconv.Atoi`. -/
theorem Parse_fails_iff_counterexample :
    "https://github.com/".toList <+: "https://github.com/golang/go/pull/99999999999999999999".toList
      ∧ pathSegments "https://github.com/golang/go/pull/99999999999999999999".toList
          = ["golang".toList, "go".toList, "pull".toList, "99999999999999999999".toList]
      ∧ "pull".toList ∈ ["issues".toList, "pull".toList, "discussions".toList]
      ∧ IsPositiveDecimal "99999999999999999999".toList
      ∧ decimalValue "99999999999999999999".toList = 99999999999999999999
      ∧ Parse "https://github.com/golang/go/pull/99999999999999999999".toList
          = .error (.invalidNumber
              ⟨"Atoi".toList, "99999999999999999999".toList, Err.ErrRange⟩) :=
  ⟨⟨"golang/go/pull/99999999999999999999".toList, by rfl⟩, by rfl, by decide, by decide,
    by decide, by rfl⟩

/-- C8 as stated fails: `Parse` accepts a URL whose number segment is `-5` and returns
the number `-5`, which is not positive. -/
theorem Parse_invariant_counterexample :
    ∃ info, Parse "https://github.com/golang/go/issues/-5".toList = .ok info
      ∧ ¬ (info.Number > 0) :=
  ⟨⟨ResourceTypeIssue, "golang".toList, "go".toList, -5,
      "https://github.com/golang/go/issues/-5".toList⟩, by rfl, by decide⟩

/-- C8 (as amended): when `Parse` succeeds, `Number` is some 64-bit `int`, from `-2^63`
to `2^63 - 1`, and `Type` is one of `issue`, `pull_request`, `discussion`. -/
theorem Parse_invariant (url : Str) (info : URLInfo) (h : Parse url = .ok info) :
    (-(2 : Int) ^ 63 ≤ info.Number ∧ info.Number < 2 ^ 63)
      ∧ (info.Type_ = "issue".toList ∨ info.Type_ = "pull_request".toList
          ∨ info.Type_ = "discussion".toList) := by
  obtain ⟨_, o, r, k, n, v, _, hA, hk⟩ := Parse_ok_inv h
  have hr := Atoi_range (s := n) (by rw [hA])
  rw [hA] at hr
  rcases hk with ⟨_, rfl⟩ | ⟨_, rfl⟩ | ⟨_, rfl⟩
  · exact ⟨hr, Or.inl rfl⟩
  · exact ⟨hr, Or.inr (Or.inl rfl)⟩
  · exact ⟨hr, Or.inr (Or.inr rfl)⟩

/-- The invariant on the pull-request URL of the test table. -/
theorem Parse_invariant_witness :
    (-(2 : Int) ^ 63 ≤ 67890 ∧ (67890 : Int) < 2 ^ 63)
      ∧ (ResourceTypePullRequest = "issue".toList
          ∨ ResourceTypePullRequest = "pull_request".toList
          ∨ ResourceTypePullRequest = "discussion".toList) :=
  Parse_invariant "https://github.com/golang/go/pull/67890".toList
    ⟨ResourceTypePullRequest, "golang".toList, "go".toList, 67890,
      "https://github.com/golang/go/pull/67890".toList⟩ (by rfl)

/-- C9 as stated fails: with the keyword `releases` and the number segment `x`, `Parse`
fails with the invalid-issue-number error, not the unsupported-resource-type error,
because the number is parsed before the keyword is looked at. -/
theorem Parse_unsupported_counterexample :
    HasPrefix "https://github.com/golang/go/releases/x".toList "https://github.com/".toList
        = true
      ∧ Split (TrimPrefix "https://github.com/golang/go/releases/x".toList
          "https://github.com/".toList) '/'
        = ["golang".toList, "go".toList, "releases".toList, "x".toList]
      ∧ Parse "https://github.com/golang/go/releases/x".toList
        = .error (.invalidNumber ⟨"Atoi".toList, "x".toList, Err.ErrSyntax⟩)
      ∧ Parse "https://github.com/golang/go/releases/x".toList
        ≠ .error (.unsupportedType "releases".toList) :=
  ⟨by rfl, by rfl, by rfl, fun h => by
    rw [show Parse "https://github.com/golang/go/releases/x".toList
      = .error (.invalidNumber ⟨"Atoi".toList, "x".toList, Err.ErrSyntax⟩) from rfl] at h
    cases h⟩

/-- C9 (as amended): for a URL with the prefix and exactly four segments whose third
segment is none of `issues`, `pull`, `discussions`, `Parse` fails; the error is the
unsupported-resource-type error naming that segment when `strconv.Atoi` accepts the
fourth segment, and the invalid-issue-number error wrapping the error of `Atoi` when it
does not. -/
theorem Parse_unsupported (url : Str)
    (hp : HasPrefix url "https://github.com/".toList = true)
    (hl : (Split (TrimPrefix url "https://github.com/".toList) '/').length = 4)
    (hk : (Split (TrimPrefix url "https://github.com/".toList) '/').getD 2 []
            ∉ ["issues".toList, "pull".toList, "discussions".toList]) :
    Parse url =
      match Atoi ((Split (TrimPrefix url "https://github.com/".toList) '/').getD 3 []) with
      | (_, some err) => .error (.invalidNumber err)
      | (_, none) => .error (.unsupportedType
          ((Split (TrimPrefix url "https://github.com/".toList) '/').getD 2 [])) := by
  change HasPrefix url githubPrefix = true at hp
  change (Split (TrimPrefix url githubPrefix) '/').length = 4 at hl
  change (Split (TrimPrefix url githubPrefix) '/').getD 2 [] ∉ _ at hk
  change Parse url =
      match Atoi ((Split (TrimPrefix url githubPrefix) '/').getD 3 []) with
      | (_, some err) => .error (.invalidNumber err)
      | (_, none) => .error (.unsupportedType
          ((Split (TrimPrefix url githubPrefix) '/').getD 2 []))
  obtain ⟨o, r, k, n, hs⟩ := length_eq_four hl
  rw [Parse_of_segments hp hs]
  rw [hs] at hk ⊢
  simp only [List.getD_cons_succ, List.getD_cons_zero, List.mem_cons, List.mem_singleton,
    List.not_mem_nil, or_false, not_or] at hk ⊢
  obtain ⟨h1, h2, h3⟩ := hk
  rcases hA : Atoi n with ⟨v, _ | err⟩
  · simp only [if_neg h1, if_neg h2, if_neg h3]
  · rfl

/-- The `releases` URL of the test table, whose number segment is numeric. -/
theorem Parse_unsupported_witness :
    Parse "https://github.com/golang/go/releases/123".toList
      = .error (.unsupportedType "releases".toList) :=
  Parse_unsupported "https://github.com/golang/go/releases/123".toList
    (by rfl) (by rfl) (by decide)

/-- C10: `Parse` performs no normalization: for every URL that `Parse` accepts, it
rejects that URL followed by `/` and that URL followed by `?` and any query string. -/
theorem Parse_no_normalization (url : Str) (h : ∃ info, Parse url = .ok info) :
    (∃ e, Parse (url ++ "/".toList) = .error e)
      ∧ ∀ q : Str, ∃ e, Parse (url ++ "?".toList ++ q) = .error e := by
  obtain ⟨info, h⟩ := h
  obtain ⟨hp, o, r, k, n, v, hs, hA, _⟩ := Parse_ok_inv h
  have hn : n ≠ [] := by
    rintro rfl
    exact Atoi_nil_err (by rw [hA])
  constructor
  · obtain ⟨hp2, hs2⟩ := Split_of_append hp hs "/".toList
    refine ⟨_, Parse_of_length_ne hp2 ?_⟩
    rw [hs2]
    simp [Split_slash]
  · intro q
    have hq : url ++ "?".toList ++ q = url ++ '?' :: q := by simp
    rw [hq]
    obtain ⟨hp2, hs2⟩ := Split_of_append hp hs ('?' :: q)
    rw [Split_cons_ne (by decide)] at hs2
    simp only [List.headD_cons, List.tail_cons] at hs2
    cases ht : (Split q '/').tail with
    | nil =>
      rw [ht] at hs2
      rw [Parse_of_segments hp2 hs2]
      have herr := Atoi_append_nondigit hn (c := '?') (by decide) ((Split q '/').headD [])
      rcases hA2 : Atoi (n ++ '?' :: (Split q '/').headD []) with ⟨v2, _ | err⟩
      · rw [hA2] at herr
        exact absurd rfl herr
      · exact ⟨_, rfl⟩
    | cons seg segs =>
      refine ⟨_, Parse_of_length_ne hp2 ?_⟩
      rw [hs2, ht]
      simp

/-- The issue URL of the test table, which `Parse` accepts, is rejected with a trailing
slash and with a query string. -/
theorem Parse_no_normalization_witness :
    (∃ e, Parse ("https://github.com/golang/go/issues/12345".toList ++ "/".toList)
        = .error e)
      ∧ ∀ q : Str, ∃ e,
          Parse ("https://github.com/golang/go/issues/12345".toList ++ "?".toList ++ q)
            = .error e :=
  Parse_no_normalization "https://github.com/golang/go/issues/12345".toList
    ⟨⟨ResourceTypeIssue, "golang".toList, "go".toList, 12345,
      "https://github.com/golang/go/issues/12345".toList⟩, by rfl⟩

/-- C11: for every URL, `Validate` returns true exactly when `Parse` returns no error,
that is, exactly when `Parse` returns a `URLInfo`; it returns false exactly when `Parse`
returns an error. -/
theorem Validate_iff_Parse_ok (url : Str) :
    (Validate url = true ↔ ¬ ∃ e, Parse url = .error e)
      ∧ (Validate url = true ↔ ∃ info, Parse url = .ok info)
      ∧ (Validate url = false ↔ ∃ e, Parse url = .error e) := by
  unfold Validate
  cases h : Parse url with
  | error e => simp
  | ok info => simp

end parser

/-! ## The claims about the client -/

namespace github

variable {Time Body Ctx σ : Type}

/-- C3 as stated fails: the issue payload of the test says `comments: 2`, the comments
endpoint returns one comment, and the returned `CommentsCount` is 1, the length of
`Comments`, not 2. -/
theorem FetchIssue_CommentsCount_counterexample :
    ∃ issue s1,
      FetchIssue mockLib mockClient () "testowner".toList "testrepo".toList 12345
          [.ok ⟨200, .issue mockIssue⟩, .ok ⟨200, .comments [mockComment1]⟩]
        = (.ok issue, s1)
      ∧ mockIssue.Comments = 2 ∧ issue.CommentsCount = 1
      ∧ issue.CommentsCount ≠ mockIssue.Comments :=
  ⟨{ issueOf mockLib mockIssue with
      Comments := [commentOf mockLib mockComment1], CommentsCount := 1 }, [],
    by rfl, by rfl, by rfl, by decide⟩

/-- C3 (as amended): for every successful `FetchIssue` call, the returned `CommentsCount`
is the length of the returned `Comments`, the comments fetched from the comments
endpoint. -/
theorem FetchIssue_CommentsCount (L : Lib Time Body Ctx) (c : clientImpl σ Body Ctx)
    (ctx : Ctx) (owner repo : Str) (number : Int) (s s2 : σ) (issue : Issue Time)
    (h : FetchIssue L c ctx owner repo number s = (.ok issue, s2)) :
    issue.CommentsCount = (issue.Comments.length : Int) := by
  rw [FetchIssue_eq] at h
  rcases h1 : fetchIssue L c ctx (issueEndpoint c.baseURL owner repo number) s
    with ⟨e | issue0, s1⟩
  · rw [h1] at h
    simp at h
  · rw [h1] at h
    dsimp only at h
    rcases h2 : fetchComments L c ctx (commentsEndpoint c.baseURL owner repo number) s1
      with ⟨e | comments, s3⟩
    · rw [h2] at h
      simp at h
    · rw [h2] at h
      simp only [Prod.mk.injEq, Except.ok.injEq] at h
      rw [← h.1]

/-- The count on the two fixtures of `TestFetchIssue`. -/
theorem FetchIssue_CommentsCount_witness :
    ({ issueOf mockLib mockIssue with
        Comments := [commentOf mockLib mockComment1, commentOf mockLib mockComment2],
        CommentsCount := 2 } : Issue Nat).CommentsCount
      = (([commentOf mockLib mockComment1, commentOf mockLib mockComment2]
          : List (Comment Nat)).length : Int) :=
  FetchIssue_CommentsCount mockLib mockClient () "testowner".toList "testrepo".toList 12345
    [.ok ⟨200, .issue mockIssue⟩, .ok ⟨200, .comments [mockComment1, mockComment2]⟩] []
    { issueOf mockLib mockIssue with
        Comments := [commentOf mockLib mockComment1, commentOf mockLib mockComment2],
        CommentsCount := 2 }
    (by rfl)

/-- C4: when the issue request gets a 200 response whose payload decodes, the issue
`fetchIssue` builds has `ID` = the payload's `number`, `Title`, `State`, `URL` =
`html_url`, `Body`, `Author` = `user.login`, `AuthorURL` = `user.html_url`, `Labels` = the
label names in order, `Assignees` = the assignee logins in order, and `Milestone` =
`milestone.title` when there is a milestone and unset otherwise; the issue `FetchIssue`
returns once the comments are fetched has them too. -/
theorem fetchIssue_maps_payload (L : Lib Time Body Ctx) (c : clientImpl σ Body Ctx)
    (ctx : Ctx) (owner repo : Str) (number : Int) (s s1 : σ) (req : Request Ctx)
    (resp : Response Body) (p : APIIssue)
    (hreq : L.NewRequestWithContext ctx "GET".toList
              (issueEndpoint c.baseURL owner repo number) = .ok req)
    (hdo : c.httpClient.Do (sentRequest c req) s = (.ok resp, s1))
    (h200 : resp.StatusCode = 200)
    (hdec : L.decodeIssue resp.Body = .ok p) :
    (∃ issue, fetchIssue L c ctx (issueEndpoint c.baseURL owner repo number) s
          = (.ok issue, s1)
        ∧ MapsPayload p issue)
      ∧ ∀ comments s2,
          fetchComments L c ctx (commentsEndpoint c.baseURL owner repo number) s1
              = (.ok comments, s2) →
          ∃ issue, FetchIssue L c ctx owner repo number s = (.ok issue, s2)
            ∧ MapsPayload p issue := by
  have h1 := fetchIssue_ok L c ctx _ s s1 req resp p hreq hdo h200 hdec
  have hm : MapsPayload p (issueOf L p) := by
    simp [MapsPayload, issueOf]
  refine ⟨⟨_, h1, hm⟩, ?_⟩
  intro comments s2 h2
  exact ⟨_, FetchIssue_of_ok h1 h2, hm⟩

/-- The field mapping on the issue fixture of `TestFetchIssue`. -/
theorem fetchIssue_maps_payload_witness :
    (∃ issue, fetchIssue mockLib mockClient ()
          (issueEndpoint mockClient.baseURL "testowner".toList "testrepo".toList 12345)
          [.ok ⟨200, .issue mockIssue⟩, .ok ⟨200, .comments [mockComment1, mockComment2]⟩]
          = (.ok issue, [.ok ⟨200, .comments [mockComment1, mockComment2]⟩])
        ∧ MapsPayload mockIssue issue)
      ∧ ∀ comments s2,
          fetchComments mockLib mockClient ()
              (commentsEndpoint mockClient.baseURL "testowner".toList "testrepo".toList 12345)
              [.ok ⟨200, .comments [mockComment1, mockComment2]⟩]
              = (.ok comments, s2) →
          ∃ issue, FetchIssue mockLib mockClient () "testowner".toList "testrepo".toList
                12345
                [.ok ⟨200, .issue mockIssue⟩,
                  .ok ⟨200, .comments [mockComment1, mockComment2]⟩]
              = (.ok issue, s2)
            ∧ MapsPayload mockIssue issue :=
  fetchIssue_maps_payload mockLib mockClient () "testowner".toList "testrepo".toList 12345
    [.ok ⟨200, .issue mockIssue⟩, .ok ⟨200, .comments [mockComment1, mockComment2]⟩]
    [.ok ⟨200, .comments [mockComment1, mockComment2]⟩]
    ⟨(), "GET".toList,
      issueEndpoint mockClient.baseURL "testowner".toList "testrepo".toList 12345, []⟩
    ⟨200, .issue mockIssue⟩ mockIssue (by rfl) (by rfl) (by rfl) (by rfl)

/-- C5: if the response to the issue request, or the response to the comments request
sent after the issue was fetched, has a status code outside 200-299, `FetchIssue` returns
an error and no issue. -/
theorem FetchIssue_non2xx (L : Lib Time Body Ctx) (c : clientImpl σ Body Ctx)
    (ctx : Ctx) (owner repo : Str) (number : Int) (s : σ)
    (h : (∃ req resp s1,
            L.NewRequestWithContext ctx "GET".toList
                (issueEndpoint c.baseURL owner repo number) = .ok req
            ∧ c.httpClient.Do (sentRequest c req) s = (.ok resp, s1)
            ∧ ¬ Is2xx resp.StatusCode)
        ∨ (∃ issue s1 req resp s2,
            fetchIssue L c ctx (issueEndpoint c.baseURL owner repo number) s
                = (.ok issue, s1)
            ∧ L.NewRequestWithContext ctx "GET".toList
                (commentsEndpoint c.baseURL owner repo number) = .ok req
            ∧ c.httpClient.Do (sentRequest c req) s1 = (.ok resp, s2)
            ∧ ¬ Is2xx resp.StatusCode)) :
    ∃ e s3, FetchIssue L c ctx owner repo number s = (.error e, s3) := by
  have hne : ∀ code : Int, ¬ Is2xx code → code ≠ 200 := by
    intro code h2 h3
    exact h2 (by rw [h3]; decide)
  rcases h with ⟨req, resp, s1, hreq, hdo, hcode⟩ | ⟨issue, s1, req, resp, s2, h1, hreq, hdo, hcode⟩
  · exact ⟨_, _, FetchIssue_of_fetchIssue_error
      (fetchIssue_status L c ctx _ s s1 req resp hreq hdo (hne _ hcode))⟩
  · exact ⟨_, _, FetchIssue_of_fetchComments_error h1
      (fetchComments_status L c ctx _ s1 s2 req resp hreq hdo (hne _ hcode))⟩

/-- The issue request succeeds and the comments request is answered with 404: the call
fails. -/
theorem FetchIssue_non2xx_witness :
    ∃ e s3, FetchIssue mockLib mockClient () "testowner".toList "testrepo".toList 12345
        [.ok ⟨200, .issue mockIssue⟩, .ok ⟨404, .message ⟨"Not Found".toList, []⟩⟩]
      = (.error e, s3) :=
  FetchIssue_non2xx mockLib mockClient () "testowner".toList "testrepo".toList 12345
    [.ok ⟨200, .issue mockIssue⟩, .ok ⟨404, .message ⟨"Not Found".toList, []⟩⟩]
    (Or.inr ⟨issueOf mockLib mockIssue,
      [.ok ⟨404, .message ⟨"Not Found".toList, []⟩⟩],
      ⟨(), "GET".toList,
        commentsEndpoint mockClient.baseURL "testowner".toList "testrepo".toList 12345, []⟩,
      ⟨404, .message ⟨"Not Found".toList, []⟩⟩, [],
      by rfl, by rfl, by rfl, by decide⟩)

/-- C6: when the comments request, sent after the issue was fetched, gets a 200
response whose array decodes, `Comments` of the returned issue has the length of the array
and its i-th comment has the `user.login`, `user.html_url` and `body` of the i-th
element. -/
theorem FetchIssue_comments (L : Lib Time Body Ctx) (c : clientImpl σ Body Ctx)
    (ctx : Ctx) (owner repo : Str) (number : Int) (s s1 s2 : σ) (issue0 : Issue Time)
    (req : Request Ctx) (resp : Response Body) (arr : List APIComment)
    (hissue : fetchIssue L c ctx (issueEndpoint c.baseURL owner repo number) s
                = (.ok issue0, s1))
    (hreq : L.NewRequestWithContext ctx "GET".toList
              (commentsEndpoint c.baseURL owner repo number) = .ok req)
    (hdo : c.httpClient.Do (sentRequest c req) s1 = (.ok resp, s2))
    (h200 : resp.StatusCode = 200)
    (hdec : L.decodeComments resp.Body = .ok arr) :
    ∃ issue, FetchIssue L c ctx owner repo number s = (.ok issue, s2)
      ∧ issue.Comments.length = arr.length
      ∧ ∀ (i : Nat) (h1 : i < issue.Comments.length) (h2 : i < arr.length),
          issue.Comments[i].Author = arr[i].User.Login
            ∧ issue.Comments[i].AuthorURL = arr[i].User.HTMLURL
            ∧ issue.Comments[i].Body = arr[i].Body := by
  have hc := fetchComments_ok L c ctx _ s1 s2 req resp arr hreq hdo h200 hdec
  refine ⟨_, FetchIssue_of_ok hissue hc, by simp, ?_⟩
  intro i h1 h2
  simp [commentOf]

/-- The comments of the fixture of `TestFetchIssue`, in order. -/
theorem FetchIssue_comments_witness :
    ∃ issue, FetchIssue mockLib mockClient () "testowner".toList "testrepo".toList 12345
          [.ok ⟨200, .issue mockIssue⟩, .ok ⟨200, .comments [mockComment1, mockComment2]⟩]
        = (.ok issue, [])
      ∧ issue.Comments.length = [mockComment1, mockComment2].length
      ∧ ∀ (i : Nat) (h1 : i < issue.Comments.length)
          (h2 : i < [mockComment1, mockComment2].length),
          issue.Comments[i].Author = [mockComment1, mockComment2][i].User.Login
            ∧ issue.Comments[i].AuthorURL = [mockComment1, mockComment2][i].User.HTMLURL
            ∧ issue.Comments[i].Body = [mockComment1, mockComment2][i].Body :=
  FetchIssue_comments mockLib mockClient () "testowner".toList "testrepo".toList 12345
    [.ok ⟨200, .issue mockIssue⟩, .ok ⟨200, .comments [mockComment1, mockComment2]⟩]
    [.ok ⟨200, .comments [mockComment1, mockComment2]⟩] []
    (issueOf mockLib mockIssue)
    ⟨(), "GET".toList,
      commentsEndpoint mockClient.baseURL "testowner".toList "testrepo".toList 12345, []⟩
    ⟨200, .comments [mockComment1, mockComment2]⟩ [mockComment1, mockComment2]
    (by rfl) (by rfl) (by rfl) (by rfl) (by rfl)

/-- C7: when both requests get a 200 response whose payload decodes, `FetchIssue`
succeeds whatever the timestamps contain: `CreatedAt` and `UpdatedAt`, of the issue and
of every comment, are the parsed time of a valid RFC3339 string and the zero time
otherwise, and `ClosedAt` is the parsed time of a valid RFC3339 `closed_at` and unset when
`closed_at` is absent, null or not valid. -/
theorem FetchIssue_timestamps (L : Lib Time Body Ctx) (c : clientImpl σ Body Ctx)
    (ctx : Ctx) (owner repo : Str) (number : Int) (s s1 s2 : σ)
    (req1 req2 : Request Ctx) (resp1 resp2 : Response Body)
    (p : APIIssue) (arr : List APIComment)
    (hreq1 : L.NewRequestWithContext ctx "GET".toList
              (issueEndpoint c.baseURL owner repo number) = .ok req1)
    (hdo1 : c.httpClient.Do (sentRequest c req1) s = (.ok resp1, s1))
    (hcode1 : resp1.StatusCode = 200)
    (hdec1 : L.decodeIssue resp1.Body = .ok p)
    (hreq2 : L.NewRequestWithContext ctx "GET".toList
              (commentsEndpoint c.baseURL owner repo number) = .ok req2)
    (hdo2 : c.httpClient.Do (sentRequest c req2) s1 = (.ok resp2, s2))
    (hcode2 : resp2.StatusCode = 200)
    (hdec2 : L.decodeComments resp2.Body = .ok arr) :
    ∃ issue, FetchIssue L c ctx owner repo number s = (.ok issue, s2)
      ∧ issue.CreatedAt = parsedOrZero L p.CreatedAt
      ∧ issue.UpdatedAt = parsedOrZero L p.UpdatedAt
      ∧ issue.ClosedAt = parsedOrUnset L p.ClosedAt
      ∧ issue.Comments.map (fun cm => (cm.CreatedAt, cm.UpdatedAt))
          = arr.map (fun a => (parsedOrZero L a.CreatedAt, parsedOrZero L a.UpdatedAt)) := by
  have h1 := fetchIssue_ok L c ctx _ s s1 req1 resp1 p hreq1 hdo1 hcode1 hdec1
  have h2 := fetchComments_ok L c ctx _ s1 s2 req2 resp2 arr hreq2 hdo2 hcode2 hdec2
  refine ⟨_, FetchIssue_of_ok h1 h2, rfl, rfl, rfl, ?_⟩
  simp [commentOf, Function.comp_def]

/-- With the bad timestamps the call succeeds, leaves `CreatedAt` at the zero time and
`ClosedAt` unset, and stores the valid `updated_at`. -/
theorem FetchIssue_timestamps_witness :
    ∃ issue, FetchIssue mockLib mockClient () "testowner".toList "testrepo".toList 12345
          [.ok ⟨200, .issue mockIssueBadTimes⟩, .ok ⟨200, .comments [mockComment1]⟩]
        = (.ok issue, [])
      ∧ issue.CreatedAt = parsedOrZero mockLib mockIssueBadTimes.CreatedAt
      ∧ issue.UpdatedAt = parsedOrZero mockLib mockIssueBadTimes.UpdatedAt
      ∧ issue.ClosedAt = parsedOrUnset mockLib mockIssueBadTimes.ClosedAt
      ∧ issue.Comments.map (fun cm => (cm.CreatedAt, cm.UpdatedAt))
          = [mockComment1].map
              (fun a => (parsedOrZero mockLib a.CreatedAt, parsedOrZero mockLib a.UpdatedAt)) :=
  FetchIssue_timestamps mockLib mockClient () "testowner".toList "testrepo".toList 12345
    [.ok ⟨200, .issue mockIssueBadTimes⟩, .ok ⟨200, .comments [mockComment1]⟩]
    [.ok ⟨200, .comments [mockComment1]⟩] []
    ⟨(), "GET".toList,
      issueEndpoint mockClient.baseURL "testowner".toList "testrepo".toList 12345, []⟩
    ⟨(), "GET".toList,
      commentsEndpoint mockClient.baseURL "testowner".toList "testrepo".toList 12345, []⟩
    ⟨200, .issue mockIssueBadTimes⟩ ⟨200, .comments [mockComment1]⟩
    mockIssueBadTimes [mockComment1]
    (by rfl) (by rfl) (by rfl) (by rfl) (by rfl) (by rfl) (by rfl) (by rfl)

end github

end Issue2md
